import Mathlib

/-!
Shallow embedding of the runner/race/competition simulator
(`runner.py`, `race.py`, `competition.py`).

Python floats are modelled as rationals, Python ints as integers,
`round(x, 2)` as round-half-to-even at two decimals, and fallible
Python code (raising `CustomTypeError` / `CustomValueError` /
`TypeError` / `KeyError` / `IndexError` …) as `Except PyErr`.
Runner objects live in a `Store` indexed by reference identity,
mirroring Python's sharing of mutable runner objects between the
competition and its races.
-/

namespace RunnerSim

/-- Error kinds raised by the Python code: the custom exceptions of
`custom_errors.py` plus the builtin exceptions the interpreter itself
can raise (`TypeError` from comparing `float` with `str`,
`ZeroDivisionError`, `KeyError`, `IndexError`). -/
inductive PyErr where
  | typeError
  | valueError
  | raceFull
  | runnerExists
  | runnerMissing
  | zeroDivision
  | keyError
  | indexError
deriving DecidableEq, Repr

/-- Equality of `Except` results is decidable componentwise. -/
instance {ε α : Type} [DecidableEq ε] [DecidableEq α] : DecidableEq (Except ε α) :=
  fun a b =>
    match a, b with
    | .ok x, .ok y => decidable_of_iff (x = y) (by simp)
    | .error x, .error y => decidable_of_iff (x = y) (by simp)
    | .ok _, .error _ => isFalse (by simp)
    | .error _, .ok _ => isFalse (by simp)

/-- Round to an integer, half to even, as Python's builtin rounding does. -/
def roundHalfEven (q : ℚ) : ℤ :=
  let n := Rat.floor q
  let f := q - n
  if f < 1/2 then n
  else if 1/2 < f then n + 1
  else if n % 2 = 0 then n else n + 1

/-- Python's `round(x, 2)`. -/
def pyRound2 (q : ℚ) : ℚ := (roundHalfEven (q * 100) : ℚ) / 100

/-- The mutable state of a `Runner` object (`runner.py`).  Identity and
capability fields are set once by `__init__`; `energy` is the only field
the simulation mutates. -/
structure RunnerSt where
  name : String
  age : ℤ
  country : String
  sprintSpeed : ℚ
  enduranceSpeed : ℚ
  energy : ℤ
  maxEnergy : ℤ
deriving DecidableEq, Repr

/-- A Python argument value, tagged with its runtime type, used to model
the `isinstance` checks of `Runner.__init__`. -/
inductive PyArg where
  | str (s : String)
  | int (n : ℤ)
  | float (q : ℚ)
  | other
deriving DecidableEq, Repr

/-- Drop every space character, as the name check does before validating. -/
def stripSpaces (s : String) : String := String.mk (s.data.filter (fun c => c ≠ ' '))

/-- Python `str.isalnum`: nonempty and all characters alphanumeric. -/
def pyIsAlnum (s : String) : Bool := s.data ≠ [] && s.data.all Char.isAlphanum

/-- Model of `Runner.__init__`: `isinstance` checks first (`CustomTypeError`),
then the value checks (`CustomValueError`), then the fields are set with
`energy = max_energy = 1000`.  The valid-country set read from
`countries.csv` is passed in explicitly. -/
def runnerInit (name age country sprintSpeed enduranceSpeed : PyArg)
    (validCountries : List String) : Except PyErr RunnerSt :=
  match name, age, country, sprintSpeed, enduranceSpeed with
  | .str nm, .int a, .str c, .float sp, .float en =>
    if pyIsAlnum (stripSpaces nm) ∧ 5 ≤ a ∧ a ≤ 100 ∧ c ∈ validCountries ∧
        (2.2 : ℚ) ≤ sp ∧ sp ≤ 6.8 ∧ (1.8 : ℚ) ≤ en ∧ en ≤ 5.4 then
      Except.ok { name := nm, age := a, country := c, sprintSpeed := sp,
                  enduranceSpeed := en, energy := 1000, maxEnergy := 1000 }
    else Except.error .valueError
  | _, _, _, _, _ => Except.error .typeError

/-- Model of `Runner.drain_energy`: value check `1 <= drain_points <= max_energy`,
then subtract and clamp at `0`. -/
def drainEnergy (st : RunnerSt) (drainPoints : ℤ) : Except PyErr RunnerSt :=
  if ¬(1 ≤ drainPoints ∧ drainPoints ≤ st.maxEnergy) then Except.error .valueError
  else
    let e := st.energy - drainPoints
    Except.ok { st with energy := if e < 0 then 0 else e }

/-- Model of `Runner.recover_energy`: value check `1 <= recovery_amount <= max_energy`,
then add and clamp at `max_energy`. -/
def recoverEnergy (st : RunnerSt) (recoveryAmount : ℤ) : Except PyErr RunnerSt :=
  if ¬(1 ≤ recoveryAmount ∧ recoveryAmount ≤ st.maxEnergy) then Except.error .valueError
  else
    let e := st.energy + recoveryAmount
    Except.ok { st with energy := if st.maxEnergy < e then st.maxEnergy else e }

/-- Model of `Runner.run_race`: value checks on the race type and the distance, then
`round(distance * 1000 / speed, 2)`.  A zero speed would raise
`ZeroDivisionError` in Python, modelled as an explicit error. -/
def runRace (st : RunnerSt) (raceType : String) (distance : ℚ) : Except PyErr ℚ :=
  if raceType ∉ (["short", "long"] : List String) then Except.error .valueError
  else if distance ≤ 0 then Except.error .valueError
  else
    let distanceMeters := distance * 1000
    let speed := if raceType = "short" then st.sprintSpeed else st.enduranceSpeed
    if speed = 0 then Except.error .zeroDivision
    else Except.ok (pyRound2 (distanceMeters / speed))

/-- Runner objects are shared mutable state; a runner reference is its
identity in the store. -/
abbrev RId := Nat

/-- The heap of runner objects. -/
abbrev Store := RId → RunnerSt

/-- Write back the mutated runner object. -/
def updStore (s : Store) (rid : RId) (st : RunnerSt) : Store :=
  fun j => if j = rid then st else s j

/-- A race result value: a finishing time or the string `"DNF"`. -/
inductive RaceTime where
  | num (q : ℚ)
  | dnf
deriving DecidableEq, Repr

/-- A `Race` object (`race.py`): attributes as set by `Race.__init__`. -/
structure Race where
  runners : List RId
  raceType : String
  distance : ℚ
  energyPerKm : ℤ
  maximumParticipants : ℕ
  timeMultiplier : ℚ
deriving DecidableEq, Repr

/-- Model of `Race.__init__`: value checks `distance > 0` and
`race_type in ["short", "long"]`; the roster list is accepted as given,
with no size or duplicate check. -/
def raceInit (distance : ℚ) (runners : List RId) (raceType : String) :
    Except PyErr Race :=
  if ¬(0 < distance ∧ raceType ∈ (["short", "long"] : List String)) then
    Except.error .valueError
  else
    Except.ok { runners := runners, raceType := raceType, distance := distance,
                energyPerKm := 100,
                maximumParticipants := if raceType = "short" then 8 else 16,
                timeMultiplier := 1.2 }

/-- Model of `Race.add_runner`: full check, duplicate check (by object identity),
then append. -/
def addRunner (r : Race) (rid : RId) : Except PyErr Race :=
  if r.maximumParticipants ≤ r.runners.length then Except.error .raceFull
  else if rid ∈ r.runners then Except.error .runnerExists
  else Except.ok { r with runners := r.runners ++ [rid] }

/-- Model of `Race.remove_runner`: absence check, then remove. -/
def removeRunner (r : Race) (rid : RId) : Except PyErr Race :=
  if rid ∉ r.runners then Except.error .runnerMissing
  else Except.ok { r with runners := r.runners.erase rid }

/-- The per-runner marathon loop of `Race.conduct_race`: for each of the
remaining kilometers, if the runner has energy left, add
`run_race("long", 1.0)` to the accumulated time and drain `100` energy,
otherwise record `"DNF"` and stop. -/
def simKms (st : RunnerSt) (acc : ℚ) : Nat → Except PyErr (RaceTime × RunnerSt)
  | 0 => Except.ok (.num acc, st)
  | k + 1 =>
    if 0 < st.energy then
      match runRace st "long" 1 with
      | .error e => Except.error e
      | .ok t =>
        match drainEnergy st 100 with
        | .error e => Except.error e
        | .ok st2 => simKms st2 (acc + t) k
    else Except.ok (.dnf, st)

/-- The marathon branch of `Race.conduct_race`: simulate each roster
member in roster order, threading the shared store. -/
def marathonGo (s : Store) (kms : Nat) :
    List RId → Except PyErr (List (RId × RaceTime) × Store)
  | [] => Except.ok ([], s)
  | rid :: rest =>
    match simKms (s rid) 0 kms with
    | .error e => Except.error e
    | .ok (t, st2) =>
      match marathonGo (updStore s rid st2) kms rest with
      | .error e => Except.error e
      | .ok (res, s2) => Except.ok ((rid, t) :: res, s2)

/-- The short branch of `Race.conduct_race`:
`run_race("short", distance) * time_multiplier` per roster member; no
energy is touched. -/
def shortGo (s : Store) (distance mult : ℚ) :
    List RId → Except PyErr (List (RId × RaceTime))
  | [] => Except.ok []
  | rid :: rest =>
    match runRace (s rid) "short" distance with
    | .error e => Except.error e
    | .ok t =>
      match shortGo s distance mult rest with
      | .error e => Except.error e
      | .ok res => Except.ok ((rid, .num (t * mult)) :: res)

/-- Model of `Race.conduct_race`: dispatch on the race type; a race type outside
`{"short", "long"}` would return the empty result list. -/
def conductRace (s : Store) (r : Race) :
    Except PyErr (List (RId × RaceTime) × Store) :=
  if r.raceType = "short" then
    match shortGo s r.distance r.timeMultiplier r.runners with
    | .error e => Except.error e
    | .ok res => Except.ok (res, s)
  else if r.raceType = "long" then
    marathonGo s (Rat.ceil r.distance).toNat r.runners
  else Except.ok ([], s)

/-- Python's `x[1] < y[1]` on race results: numeric times compare as
floats, `"DNF" < "DNF"` is string comparison (false), and comparing a
float with the string `"DNF"` raises `TypeError`. -/
def timeLt (a b : RaceTime) : Except PyErr Bool :=
  match a, b with
  | .num x, .num y => Except.ok (decide (x < y))
  | .dnf, .dnf => Except.ok false
  | _, _ => Except.error .typeError

/-- Insert into an already sorted list using Python's comparison: the new
element passes every element strictly smaller than it and lands before
the first element not smaller, preserving stability; any float/`"DNF"`
comparison propagates `TypeError`. -/
def pyInsert (x : RId × RaceTime) :
    List (RId × RaceTime) → Except PyErr (List (RId × RaceTime))
  | [] => Except.ok [x]
  | y :: ys =>
    match timeLt y.2 x.2 with
    | .error e => Except.error e
    | .ok b =>
      if b then
        match pyInsert x ys with
        | .error e => Except.error e
        | .ok t => Except.ok (y :: t)
      else Except.ok (x :: y :: ys)

/-- Model of `sorted(results, key=lambda x: x[1])`: a stable ascending sort that
raises `TypeError` as soon as a finishing time is compared with `"DNF"`. -/
def pySort : List (RId × RaceTime) → Except PyErr (List (RId × RaceTime))
  | [] => Except.ok []
  | x :: xs =>
    match pySort xs with
    | .error e => Except.error e
    | .ok m => pyInsert x m

/-- Decimal digits of `n` as characters, with explicit fuel (the number
itself is always enough fuel). -/
def natDigitsF : Nat → Nat → List Char
  | 0, _ => []
  | fuel + 1, n =>
    if n = 0 then []
    else natDigitsF fuel (n / 10) ++ [Nat.digitChar (n % 10)]

/-- Python's decimal rendering of a natural number. -/
def natStr (n : Nat) : String :=
  if n = 0 then "0" else String.mk (natDigitsF n n)

/-- The suffix chosen by `Competition.__get_ordinal`: `"th"` for 11–13
mod 100, otherwise by last digit with default `"th"`. -/
def ordSuffix (n : Nat) : String :=
  if 11 ≤ n % 100 ∧ n % 100 ≤ 13 then "th"
  else if n % 10 = 1 then "st"
  else if n % 10 = 2 then "nd"
  else if n % 10 = 3 then "rd"
  else "th"

/-- Model of `Competition.__get_ordinal`. -/
def getOrdinal (n : Nat) : String := natStr n ++ ordSuffix n

/-- Python dict assignment `d[k] = v` on an insertion-ordered dict:
update in place if the key is present, else append. -/
def dictSet {α β : Type} [DecidableEq α] :
    List (α × β) → α → β → List (α × β)
  | [], k, v => [(k, v)]
  | (k', v') :: t, k, v =>
    if k' = k then (k', v) :: t else (k', v') :: dictSet t k v

/-- Python dict lookup `d[k]` (as an `Option`). -/
def dictLookup {α β : Type} [DecidableEq α] (l : List (α × β)) (k : α) :
    Option β :=
  (l.find? (fun p => p.1 = k)).map Prod.snd

/-- The competition leaderboard: an insertion-ordered dict from ordinal
rank labels to `None` or a `(runner name, cumulative score)` pair. -/
abbrev Leaderboard := List (String × Option (String × ℤ))

/-- The `name2score` dict comprehension of `update_leaderboard`: walk the
sorted results with their index `i`, assigning score
`len(results) - i - 1` to finishers and `0` to `"DNF"` entries. -/
def buildScoresAux (s : Store) (n : Nat) :
    Nat → List (String × ℤ) → List (RId × RaceTime) → List (String × ℤ)
  | _, acc, [] => acc
  | i, acc, (rid, t) :: rest =>
    buildScoresAux s n (i + 1)
      (dictSet acc (s rid).name (if t = .dnf then 0 else (n : ℤ) - i - 1)) rest

/-- The carry-over loop of `update_leaderboard`: for every occupied
leaderboard slot, add the stored cumulative score to that runner's new
score (`KeyError` if the name is missing from `name2score`). -/
def addPrior : List (String × ℤ) → Leaderboard → Except PyErr (List (String × ℤ))
  | d, [] => Except.ok d
  | d, (_, none) :: t => addPrior d t
  | d, (_, some (nm, sc)) :: t =>
    match dictLookup d nm with
    | none => Except.error .keyError
    | some old => addPrior (dictSet d nm (old + sc)) t

/-- Model of `sorted(name2score.items(), key=lambda x: -x[1])`: stable ascending
sort by negated score. -/
def sortDescScore (l : List (String × ℤ)) : List (String × ℤ) :=
  List.insertionSort (fun a b => -a.2 ≤ -b.2) l

/-- The reassignment loop of `update_leaderboard`:
`leaderboard[leaderboard_keys[i]] = sorted_result[i]`; running out of
rank keys while results remain would raise `IndexError`. -/
def assignSlots : List String → List (String × ℤ) → Leaderboard →
    Except PyErr Leaderboard
  | _, [], lb => Except.ok lb
  | [], _ :: _, _ => Except.error .indexError
  | k :: ks, v :: vs, lb => assignSlots ks vs (dictSet lb k (some v))

/-- Model of `Competition.update_leaderboard`. -/
def updateLeaderboard (s : Store) (lb : Leaderboard)
    (results : List (RId × RaceTime)) : Except PyErr Leaderboard :=
  match pySort results with
  | .error e => Except.error e
  | .ok m =>
    match addPrior (buildScoresAux s results.length 0 [] m) lb with
    | .error e => Except.error e
    | .ok d => assignSlots (lb.map Prod.fst) (sortDescScore d) lb

/-- A `Competition` object (`competition.py`). -/
structure Competition where
  runners : List RId
  rounds : ℤ
  distancesShort : List ℚ
  distancesMarathon : List ℚ
  leaderboard : Leaderboard
deriving DecidableEq, Repr

/-- The leaderboard built by `Competition.__init__`:
`leaderboard[__get_ordinal(i)] = None` for `i` in `1..len(runners)`. -/
def initLeaderboard (n : Nat) : Leaderboard :=
  (List.range n).foldl (fun acc i => dictSet acc (getOrdinal (i + 1)) none) []

/-- Model of `Competition.__init__`: value checks `1 <= rounds <= MAX_ROUNDS (3)`,
all distances positive, and both distance lists of length `rounds`. -/
def competitionInit (runners : List RId) (rounds : ℤ)
    (distancesShort distancesMarathon : List ℚ) : Except PyErr Competition :=
  if ¬(1 ≤ rounds ∧ rounds ≤ 3 ∧ (∀ d ∈ distancesShort, 0 < d) ∧
      (∀ d ∈ distancesMarathon, 0 < d) ∧
      distancesShort.length = distancesMarathon.length ∧
      (distancesMarathon.length : ℤ) = rounds) then
    Except.error .valueError
  else
    Except.ok { runners := runners, rounds := rounds,
                distancesShort := distancesShort,
                distancesMarathon := distancesMarathon,
                leaderboard := initLeaderboard runners.length }

/-- List indexing with Python's `IndexError`. -/
def listIdx {α : Type} (l : List α) (i : Nat) : Except PyErr α :=
  match l.get? i with
  | some x => Except.ok x
  | none => Except.error .indexError

/-- The DNF-recovery loop of `conduct_competition`: every runner whose
marathon result is `"DNF"` gets `recover_energy(1000)`. -/
def recoverDNFs (s : Store) : List (RId × RaceTime) → Except PyErr Store
  | [] => Except.ok s
  | (rid, t) :: rest =>
    if t = .dnf then
      match recoverEnergy (s rid) 1000 with
      | .error e => Except.error e
      | .ok st2 => recoverDNFs (updStore s rid st2) rest
    else recoverDNFs s rest

/-- One iteration of the `while` loop of `conduct_competition`.  The
index `i` into the distance lists is initialised to `0` and never
incremented in the source, so every round races the distances at index
`0`. -/
def compRound (c : Competition) (s : Store) (lb : Leaderboard) :
    Except PyErr (Store × Leaderboard) :=
  match listIdx c.distancesShort 0 with
  | .error e => Except.error e
  | .ok dShort =>
    match raceInit dShort c.runners "short" with
    | .error e => Except.error e
    | .ok shortRace =>
      match conductRace s shortRace with
      | .error e => Except.error e
      | .ok (shortRes, s1) =>
        match listIdx c.distancesMarathon 0 with
        | .error e => Except.error e
        | .ok dLong =>
          match raceInit dLong c.runners "long" with
          | .error e => Except.error e
          | .ok marathon =>
            match conductRace s1 marathon with
            | .error e => Except.error e
            | .ok (marathonRes, s2) =>
              match recoverDNFs s2 marathonRes with
              | .error e => Except.error e
              | .ok s3 =>
                match updateLeaderboard s3 lb shortRes with
                | .error e => Except.error e
                | .ok lb1 =>
                  match updateLeaderboard s3 lb1 marathonRes with
                  | .error e => Except.error e
                  | .ok lb2 => Except.ok (s3, lb2)

/-- The round loop of `conduct_competition`, by remaining round count. -/
def compLoop (c : Competition) : Nat → Store → Leaderboard →
    Except PyErr (Store × Leaderboard)
  | 0, s, lb => Except.ok (s, lb)
  | n + 1, s, lb =>
    match compRound c s lb with
    | .error e => Except.error e
    | .ok (s2, lb2) => compLoop c n s2 lb2

/-- Model of `Competition.conduct_competition`. -/
def conductCompetition (s : Store) (c : Competition) :
    Except PyErr (Store × Leaderboard) :=
  compLoop c c.rounds.toNat s c.leaderboard

end RunnerSim

namespace RunnerSim

/-! ### Bridging the executable floor/ceil to Mathlib's -/

/-- The executable `Rat.floor` agrees with `⌊⌋`. -/
theorem ratFloor_eq (q : ℚ) : Rat.floor q = ⌊q⌋ :=
  (Rat.floor_def' q).trans Rat.floor_def.symm

/-- The executable `Rat.ceil` agrees with `⌈⌉`, so the marathon's
kilometer count is the true ceiling of the distance. -/
theorem ratCeil_eq (q : ℚ) : Rat.ceil q = ⌈q⌉ := by
  unfold Rat.ceil
  split
  · next h =>
    have hq : (q.num : ℚ) = q := q.den_eq_one_iff.mp h
    rw [← hq, Int.ceil_intCast, Rat.num_intCast]
  · next h =>
    have hfl : (q.num / q.den : ℤ) = ⌊q⌋ := Rat.floor_def.symm
    rw [hfl]
    symm
    rw [Int.ceil_eq_iff]
    constructor
    · push_cast
      have hle : (⌊q⌋ : ℚ) ≤ q := Int.floor_le q
      have hne : (⌊q⌋ : ℚ) ≠ q := by
        intro heq
        exact h (by rw [← heq]; exact Rat.den_intCast _)
      linarith [lt_of_le_of_ne hle hne]
    · push_cast
      exact (Int.lt_floor_add_one q).le

/-- Ceiling through floor, for numeric evaluation. -/
theorem intCeil_negFloor (q : ℚ) : ⌈q⌉ = -⌊-q⌋ := by
  rw [Int.floor_neg, neg_neg]

/-- Distinct constructors of `RaceTime`. -/
theorem num_ne_dnf (q : ℚ) : RaceTime.num q ≠ RaceTime.dnf := by
  intro h
  cases h

/-! ### Helper notions used by the claim statements -/

/-- Two runner states agreeing on everything except `energy`: race
execution only ever mutates a runner's energy. -/
def sameId (a b : RunnerSt) : Prop :=
  a.name = b.name ∧ a.age = b.age ∧ a.country = b.country ∧
  a.sprintSpeed = b.sprintSpeed ∧ a.enduranceSpeed = b.enduranceSpeed ∧
  a.maxEnergy = b.maxEnergy

theorem sameId_refl (a : RunnerSt) : sameId a a :=
  ⟨rfl, rfl, rfl, rfl, rfl, rfl⟩

theorem sameId_trans {a b c : RunnerSt} (h1 : sameId a b) (h2 : sameId b c) :
    sameId a c := by
  obtain ⟨n1, a1, c1, s1, e1, m1⟩ := h1
  obtain ⟨n2, a2, c2, s2, e2, m2⟩ := h2
  exact ⟨n1.trans n2, a1.trans a2, c1.trans c2, s1.trans s2, e1.trans e2, m1.trans m2⟩

/-- A single energy-mutating call on a runner. -/
inductive EnergyCall where
  | drain (p : ℤ)
  | recover (a : ℤ)
deriving DecidableEq

/-- A call argument inside the documented valid range `[1, 1000]`. -/
def validCall : EnergyCall → Prop
  | .drain p => 1 ≤ p ∧ p ≤ 1000
  | .recover a => 1 ≤ a ∧ a ≤ 1000

/-- Run one energy call against a runner state. -/
def applyCall (st : RunnerSt) : EnergyCall → Except PyErr RunnerSt
  | .drain p => drainEnergy st p
  | .recover a => recoverEnergy st a

/-- Run a sequence of energy calls against a runner state. -/
def applyCalls : RunnerSt → List EnergyCall → Except PyErr RunnerSt
  | st, [] => Except.ok st
  | st, c :: cs =>
    match applyCall st c with
    | .error e => Except.error e
    | .ok st2 => applyCalls st2 cs

/-- The type precondition of `Runner.__init__` as the spec states it:
name and country are strings, age an int, both speeds floats. -/
def runnerTypesOk (name age country sprintSpeed enduranceSpeed : PyArg) : Prop :=
  (∃ s, name = .str s) ∧ (∃ n, age = .int n) ∧ (∃ s, country = .str s) ∧
  (∃ q, sprintSpeed = .float q) ∧ (∃ q, enduranceSpeed = .float q)

/-- The value precondition of `Runner.__init__` as the spec states it:
alphanumeric name (spaces stripped), age in `[5, 100]`, country in the
supplied set, sprint speed in `[2.2, 6.8]`, endurance speed in
`[1.8, 5.4]`. -/
def runnerValuesOk (nm : String) (a : ℤ) (c : String) (sp en : ℚ)
    (validCountries : List String) : Prop :=
  pyIsAlnum (stripSpaces nm) ∧ 5 ≤ a ∧ a ≤ 100 ∧ c ∈ validCountries ∧
  (2.2 : ℚ) ≤ sp ∧ sp ≤ 6.8 ∧ (1.8 : ℚ) ≤ en ∧ en ≤ 5.4

/-! ### Claim C8 -/

/-- Claim C8: for every runner state inside the energy invariant with the
documented `max_energy = 1000`, any sequence of valid `drain_energy` /
`recover_energy` calls succeeds and keeps energy within `[0, 1000]`;
moreover a single valid drain subtracts and clamps at `0` and a single
valid recover adds and clamps at `max_energy`. -/
theorem c8_energy_clamping (st : RunnerSt) (calls : List EnergyCall)
    (hme : st.maxEnergy = 1000) (h0 : 0 ≤ st.energy) (h1 : st.energy ≤ 1000)
    (hv : ∀ c ∈ calls, validCall c) :
    (∃ st2, applyCalls st calls = Except.ok st2 ∧
      0 ≤ st2.energy ∧ st2.energy ≤ 1000 ∧ st2.maxEnergy = 1000) ∧
    (∀ p, 1 ≤ p → p ≤ 1000 →
      drainEnergy st p =
        Except.ok { st with energy := if st.energy - p < 0 then 0 else st.energy - p }) ∧
    (∀ a, 1 ≤ a → a ≤ 1000 →
      recoverEnergy st a =
        Except.ok { st with energy := if st.maxEnergy < st.energy + a then st.maxEnergy
                                      else st.energy + a }) := by
  refine ⟨?_, ?_, ?_⟩
  · induction calls generalizing st with
    | nil => exact ⟨st, rfl, h0, h1, hme⟩
    | cons c cs ih =>
      have hvc := hv c (List.mem_cons_self c cs)
      have hvcs : ∀ c ∈ cs, validCall c := fun c hc => hv c (List.mem_cons_of_mem _ hc)
      cases c with
      | drain p =>
        obtain ⟨hp1, hp2⟩ := hvc
        have hple : p ≤ st.maxEnergy := by rw [hme]; exact hp2
        have hstep : applyCall st (.drain p) =
            Except.ok { st with energy := if st.energy - p < 0 then 0 else st.energy - p } := by
          have hnot : ¬¬(1 ≤ p ∧ p ≤ st.maxEnergy) := not_not_intro (And.intro hp1 hple)
          simp only [applyCall, drainEnergy, if_neg hnot]
        obtain ⟨st2, hrun, hb0, hb1, hbm⟩ :=
          ih { st with energy := if st.energy - p < 0 then 0 else st.energy - p }
            hme (by dsimp only; split <;> omega) (by dsimp only; split <;> omega) hvcs
        exact ⟨st2, by simpa [applyCalls, hstep] using hrun, hb0, hb1, hbm⟩
      | recover a =>
        obtain ⟨ha1, ha2⟩ := hvc
        have hale : a ≤ st.maxEnergy := by rw [hme]; exact ha2
        have hstep : applyCall st (.recover a) =
            Except.ok { st with energy := if st.maxEnergy < st.energy + a then st.maxEnergy
                                          else st.energy + a } := by
          have hnot : ¬¬(1 ≤ a ∧ a ≤ st.maxEnergy) := not_not_intro (And.intro ha1 hale)
          simp only [applyCall, recoverEnergy, if_neg hnot]
        obtain ⟨st2, hrun, hb0, hb1, hbm⟩ :=
          ih { st with energy := if st.maxEnergy < st.energy + a then st.maxEnergy
                                 else st.energy + a }
            hme (by dsimp only; rw [hme]; split <;> omega)
            (by dsimp only; rw [hme]; split <;> omega) hvcs
        exact ⟨st2, by simpa [applyCalls, hstep] using hrun, hb0, hb1, hbm⟩
  · intro p hp1 hp2
    have hple : p ≤ st.maxEnergy := by rw [hme]; exact hp2
    have hnot : ¬¬(1 ≤ p ∧ p ≤ st.maxEnergy) := not_not_intro (And.intro hp1 hple)
    simp only [drainEnergy, if_neg hnot]
  · intro a ha1 ha2
    have hale : a ≤ st.maxEnergy := by rw [hme]; exact ha2
    have hnot : ¬¬(1 ≤ a ∧ a ≤ st.maxEnergy) := not_not_intro (And.intro ha1 hale)
    simp only [recoverEnergy, if_neg hnot]

/-- Witness for C8 at a concrete runner and call sequence. -/
theorem c8_energy_clamping_witness :
    ∃ st2,
      applyCalls
        { name := "A", age := 20, country := "Australia", sprintSpeed := 5,
          enduranceSpeed := 4, energy := 1000, maxEnergy := 1000 }
        [.drain 900, .drain 200, .recover 1000, .drain 1] = Except.ok st2 ∧
      0 ≤ st2.energy ∧ st2.energy ≤ 1000 ∧ st2.maxEnergy = 1000 :=
  (c8_energy_clamping _ _ rfl (by norm_num) (by norm_num)
    (by intro c hc; fin_cases hc <;> exact ⟨by norm_num, by norm_num⟩)).1

end RunnerSim

namespace RunnerSim

/-! ### Claim C9 -/

instance (nm : String) (a : ℤ) (c : String) (spq enq : ℚ) (cs : List String) :
    Decidable (runnerValuesOk nm a c spq enq cs) := by
  unfold runnerValuesOk
  infer_instance

/-- With well-typed arguments, `Runner.__init__` reduces to the value
check. -/
theorem runnerInit_good (nm : String) (a : ℤ) (c : String) (spq enq : ℚ) (cs : List String) :
    runnerInit (.str nm) (.int a) (.str c) (.float spq) (.float enq) cs =
      if runnerValuesOk nm a c spq enq cs then
        Except.ok { name := nm, age := a, country := c, sprintSpeed := spq,
                    enduranceSpeed := enq, energy := 1000, maxEnergy := 1000 }
      else Except.error .valueError := by
  simp only [runnerInit, runnerValuesOk]

/-- With some ill-typed argument, `Runner.__init__` raises the type
error. -/
theorem runnerInit_badtype (name age country sp en : PyArg) (cs : List String)
    (h : ¬ runnerTypesOk name age country sp en) :
    runnerInit name age country sp en cs = Except.error .typeError := by
  cases name <;> cases age <;> cases country <;> cases sp <;> cases en <;>
    first
      | rfl
      | exact absurd ⟨⟨_, rfl⟩, ⟨_, rfl⟩, ⟨_, rfl⟩, ⟨_, rfl⟩, ⟨_, rfl⟩⟩ h

/-- Claim C9: `Runner` construction fails with the type-error kind iff
some argument has the wrong runtime type; with all types correct it
fails with the value-error kind iff some value is invalid (name not
alphanumeric after stripping spaces, age outside `[5, 100]`, country not
in the supplied set, sprint speed outside `[2.2, 6.8]`, endurance speed
outside `[1.8, 5.4]`); and on success all fields are set with energy
initialised to `max_energy = 1000`, validation happening before any
state is produced. -/
theorem c9_runner_init_validation (name age country sp en : PyArg) (cs : List String) :
    (runnerInit name age country sp en cs = Except.error .typeError ↔
      ¬ runnerTypesOk name age country sp en) ∧
    (runnerInit name age country sp en cs = Except.error .valueError ↔
      (runnerTypesOk name age country sp en ∧
        ∀ nm a c spq enq, name = .str nm → age = .int a → country = .str c →
          sp = .float spq → en = .float enq → ¬ runnerValuesOk nm a c spq enq cs)) ∧
    (∀ nm a c spq enq, name = .str nm → age = .int a → country = .str c →
      sp = .float spq → en = .float enq → runnerValuesOk nm a c spq enq cs →
      runnerInit name age country sp en cs =
        Except.ok { name := nm, age := a, country := c, sprintSpeed := spq,
                    enduranceSpeed := enq, energy := 1000, maxEnergy := 1000 }) := by
  refine ⟨⟨fun hres hty => ?_, runnerInit_badtype name age country sp en cs⟩,
    ⟨fun hres => ?_, fun h => ?_⟩, fun nm a c spq enq h1 h2 h3 h4 h5 hval => ?_⟩
  · obtain ⟨⟨nm, rfl⟩, ⟨a, rfl⟩, ⟨c, rfl⟩, ⟨spq, rfl⟩, ⟨enq, rfl⟩⟩ := hty
    rw [runnerInit_good] at hres
    split at hres <;> simp at hres
  · have hty : runnerTypesOk name age country sp en := by
      by_contra hcon
      rw [runnerInit_badtype name age country sp en cs hcon] at hres
      simp at hres
    refine ⟨hty, ?_⟩
    obtain ⟨⟨nm, rfl⟩, ⟨a, rfl⟩, ⟨c, rfl⟩, ⟨spq, rfl⟩, ⟨enq, rfl⟩⟩ := hty
    intro nm2 a2 c2 spq2 enq2 e1 e2 e3 e4 e5
    cases e1
    cases e2
    cases e3
    cases e4
    cases e5
    rw [runnerInit_good] at hres
    intro hcond
    rw [if_pos hcond] at hres
    simp at hres
  · obtain ⟨hty, hval⟩ := h
    obtain ⟨⟨nm, rfl⟩, ⟨a, rfl⟩, ⟨c, rfl⟩, ⟨spq, rfl⟩, ⟨enq, rfl⟩⟩ := hty
    rw [runnerInit_good, if_neg (hval nm a c spq enq rfl rfl rfl rfl rfl)]
  · cases h1
    cases h2
    cases h3
    cases h4
    cases h5
    rw [runnerInit_good, if_pos hval]

/-- Witness for C9: a fully valid construction succeeds with energy
`1000`, and an out-of-range age fails with the value-error kind. -/
theorem c9_runner_init_validation_witness :
    runnerInit (.str "Elijah") (.int 18) (.str "Australia") (.float 5.8) (.float 4.4)
        ["Australia"] =
      Except.ok { name := "Elijah", age := 18, country := "Australia", sprintSpeed := 5.8,
                  enduranceSpeed := 4.4, energy := 1000, maxEnergy := 1000 } ∧
    runnerInit (.str "Elijah") (.int 101) (.str "Australia") (.float 5.8) (.float 4.4)
        ["Australia"] = Except.error .valueError :=
  ⟨(c9_runner_init_validation (.str "Elijah") (.int 18) (.str "Australia")
      (.float 5.8) (.float 4.4) ["Australia"]).2.2 "Elijah" 18 "Australia" 5.8 4.4
      rfl rfl rfl rfl rfl
      ⟨by decide, by norm_num, by norm_num, by decide, by norm_num, by norm_num,
        by norm_num, by norm_num⟩,
    ((c9_runner_init_validation (.str "Elijah") (.int 101) (.str "Australia")
      (.float 5.8) (.float 4.4) ["Australia"]).2.1).mpr
      ⟨⟨⟨_, rfl⟩, ⟨_, rfl⟩, ⟨_, rfl⟩, ⟨_, rfl⟩, ⟨_, rfl⟩⟩,
        by
          intro nm a c spq enq e1 e2 e3 e4 e5
          cases e1
          cases e2
          cases e3
          cases e4
          cases e5
          intro hv
          have h101 := hv.2.2.1
          norm_num at h101⟩⟩

end RunnerSim

namespace RunnerSim

/-! ### Race construction and the short race -/

/-- Inversion of a successful `Race.__init__`. -/
theorem raceInit_ok {d : ℚ} {ids : List RId} {rt : String} {r : Race}
    (h : raceInit d ids rt = Except.ok r) :
    0 < d ∧ (rt = "short" ∨ rt = "long") ∧
      r = { runners := ids, raceType := rt, distance := d, energyPerKm := 100,
            maximumParticipants := if rt = "short" then 8 else 16,
            timeMultiplier := 1.2 } := by
  unfold raceInit at h
  split at h
  · cases h
  · next hcond =>
    rw [not_not] at hcond
    obtain ⟨hd, hmem⟩ := hcond
    refine ⟨hd, ?_, ?_⟩
    · simpa using hmem
    · cases h
      rfl

/-- Evaluation of `run_race` on a short race with positive distance and nonzero sprint
speed. -/
theorem runRace_short {st : RunnerSt} {d : ℚ} (hd : 0 < d) (hsp : st.sprintSpeed ≠ 0) :
    runRace st "short" d = Except.ok (pyRound2 (d * 1000 / st.sprintSpeed)) := by
  have hmem : ¬("short" ∉ (["short", "long"] : List String)) := by simp
  rw [runRace, if_neg hmem, if_neg (not_le.mpr hd)]
  simp [hsp]

/-- Evaluation of a one-kilometer long-race call on a nonzero endurance speed. -/
theorem runRace_long1 {st : RunnerSt} (hend : st.enduranceSpeed ≠ 0) :
    runRace st "long" 1 = Except.ok (pyRound2 (1000 / st.enduranceSpeed)) := by
  have hmem : ¬("long" ∉ (["short", "long"] : List String)) := by simp
  have hlt : ¬((1 : ℚ) ≤ 0) := by norm_num
  have hns : ("long" : String) ≠ "short" := by decide
  rw [runRace, if_neg hmem, if_neg hlt]
  simp [hns, hend]

/-- The short branch of `conduct_race` maps every roster member, in
order, to `run_race("short", d) * mult` and touches nothing else. -/
theorem shortGo_spec (s : Store) (d mult : ℚ) (ids : List RId) (hd : 0 < d)
    (hsp : ∀ rid ∈ ids, (s rid).sprintSpeed ≠ 0) :
    shortGo s d mult ids =
      Except.ok (ids.map fun rid =>
        (rid, RaceTime.num (pyRound2 (d * 1000 / (s rid).sprintSpeed) * mult))) := by
  induction ids with
  | nil => rfl
  | cons rid rest ih =>
    have h1 : runRace (s rid) "short" d = Except.ok (pyRound2 (d * 1000 / (s rid).sprintSpeed)) :=
      runRace_short hd (hsp rid (List.mem_cons_self rid rest))
    have h2 := ih (fun x hx => hsp x (List.mem_cons_of_mem _ hx))
    rw [shortGo, h1, h2]
    rfl

/-- Claim C7: for every short race built by `Race.__init__` (hence with
positive distance) over sprint-capable runners, `conduct_race` gives
every roster member, in roster order, the finite numeric time
`round(d * 1000 / sprint_speed, 2) * 1.2` — never `"DNF"` — and returns
the store unchanged, so no runner's energy is modified. -/
theorem c7_short_race_spec (s : Store) (d : ℚ) (ids : List RId) (r : Race)
    (hr : raceInit d ids "short" = Except.ok r)
    (hsp : ∀ rid ∈ ids, (s rid).sprintSpeed ≠ 0) :
    conductRace s r =
      Except.ok (ids.map fun rid =>
        (rid, RaceTime.num (pyRound2 (d * 1000 / (s rid).sprintSpeed) * 1.2)), s) := by
  obtain ⟨hd, _, rfl⟩ := raceInit_ok hr
  rw [conductRace, if_pos rfl, shortGo_spec s d _ ids hd hsp]

/-- A concrete runner state for witnesses. -/
def wRunner (nm : String) (sp en : ℚ) : RunnerSt :=
  { name := nm, age := 20, country := "Australia", sprintSpeed := sp,
    enduranceSpeed := en, energy := 1000, maxEnergy := 1000 }

/-- A concrete two-runner store for witnesses. -/
def wStore : Store := fun rid => if rid = 0 then wRunner "A" 5 4 else wRunner "B" 4 2

/-- The short race `Race.__init__` builds for distance 1 and roster
`[0, 1]`. -/
def wShortRace : Race :=
  { runners := [0, 1], raceType := "short", distance := 1, energyPerKm := 100,
    maximumParticipants := 8, timeMultiplier := 1.2 }

/-- Witness for C7 at a concrete store and race. -/
theorem c7_short_race_spec_witness :
    conductRace wStore wShortRace =
      Except.ok ([0, 1].map fun rid =>
        (rid, RaceTime.num (pyRound2 (1 * 1000 / (wStore rid).sprintSpeed) * 1.2)), wStore) :=
  c7_short_race_spec wStore 1 [0, 1] wShortRace
    (by norm_num [raceInit, wShortRace])
    (by
      intro rid hrid
      fin_cases hrid <;> norm_num [wStore, wRunner])

end RunnerSim

namespace RunnerSim

/-! ### Marathon simulation -/

/-- The energy a runner has after `i` simulated kilometers: each
kilometer drains `100`, clamped at `0` exactly as `drain_energy` does. -/
def energyAfter (e : ℤ) : Nat → ℤ
  | 0 => e
  | i + 1 =>
    if energyAfter e i - 100 < 0 then 0 else energyAfter e i - 100

theorem energyAfter_nonneg {e : ℤ} (he : 0 ≤ e) : ∀ i, 0 ≤ energyAfter e i
  | 0 => he
  | i + 1 => by
    have := energyAfter_nonneg he i
    rw [energyAfter]
    split <;> omega

theorem energyAfter_shift (e : ℤ) (i : Nat) :
    energyAfter (if e - 100 < 0 then 0 else e - 100) i = energyAfter e (i + 1) := by
  induction i with
  | zero => rfl
  | succ i ih =>
    rw [energyAfter, ih]
    rfl

/-- Evaluation of a 100-point drain on any runner whose `max_energy` admits it. -/
theorem drainEnergy_100 {st : RunnerSt} (hme : 100 ≤ st.maxEnergy) :
    drainEnergy st 100 =
      Except.ok { st with energy := if st.energy - 100 < 0 then 0 else st.energy - 100 } := by
  have hnot : ¬¬((1 : ℤ) ≤ 100 ∧ 100 ≤ st.maxEnergy) :=
    not_not_intro (And.intro (by norm_num) hme)
  rw [drainEnergy, if_neg hnot]

/-- A runner whose energy stays positive for every checked kilometer
finishes: the marathon loop returns the accumulated numeric time of
`kms` repetitions of `run_race("long", 1.0)` and leaves the runner with
the drained energy. -/
theorem simKms_finish (st : RunnerSt) (acc : ℚ) (kms : Nat)
    (hend : st.enduranceSpeed ≠ 0) (hme : 100 ≤ st.maxEnergy)
    (hpos : ∀ i < kms, 0 < energyAfter st.energy i) :
    simKms st acc kms =
      Except.ok (.num (acc + (kms : ℚ) * pyRound2 (1000 / st.enduranceSpeed)),
        { st with energy := energyAfter st.energy kms }) := by
  induction kms generalizing st acc with
  | zero =>
    rw [simKms]
    norm_num [energyAfter]
  | succ k ih =>
    have h0 : 0 < st.energy := hpos 0 (Nat.succ_pos k)
    rw [simKms, if_pos h0, runRace_long1 hend, drainEnergy_100 hme]
    dsimp only
    have hstep := ih { st with energy := if st.energy - 100 < 0 then 0 else st.energy - 100 }
      (acc + pyRound2 (1000 / st.enduranceSpeed)) hend hme
      (by
        intro i hi
        dsimp only
        rw [energyAfter_shift]
        exact hpos (i + 1) (Nat.succ_lt_succ hi))
    rw [hstep]
    dsimp only
    rw [energyAfter_shift]
    congr 2
    push_cast
    ring

/-- A runner whose energy reaches `0` at some checked kilometer before
the end is marked `"DNF"`; the simulation still succeeds and only the
runner's energy can change. -/
theorem simKms_dnf (st : RunnerSt) (acc : ℚ) (kms : Nat)
    (hend : st.enduranceSpeed ≠ 0) (hme : 100 ≤ st.maxEnergy) (hnn : 0 ≤ st.energy)
    (hz : ∃ i, i < kms ∧ energyAfter st.energy i = 0) :
    ∃ st2, simKms st acc kms = Except.ok (.dnf, st2) ∧ sameId st2 st ∧ 0 ≤ st2.energy := by
  induction kms generalizing st acc with
  | zero =>
    obtain ⟨i, hi, _⟩ := hz
    exact absurd hi (Nat.not_lt_zero i)
  | succ k ih =>
    by_cases h0 : st.energy = 0
    · refine ⟨st, ?_, sameId_refl st, hnn⟩
      rw [simKms, if_neg (by omega)]
    · have hpos : 0 < st.energy := lt_of_le_of_ne hnn (Ne.symm h0)
      rw [simKms, if_pos hpos, runRace_long1 hend, drainEnergy_100 hme]
      dsimp only
      set st2 : RunnerSt :=
        { st with energy := if st.energy - 100 < 0 then 0 else st.energy - 100 } with hst2
      have hz2 : ∃ i, i < k ∧ energyAfter st2.energy i = 0 := by
        obtain ⟨i, hi, hzi⟩ := hz
        cases i with
        | zero => exact absurd hzi h0
        | succ j =>
          refine ⟨j, Nat.lt_of_succ_lt_succ hi, ?_⟩
          rw [hst2]
          dsimp only
          rw [energyAfter_shift]
          exact hzi
      obtain ⟨st3, hrun, hsame, hnn3⟩ :=
        ih st2 (acc + pyRound2 (1000 / st.enduranceSpeed)) hend hme
          (by rw [hst2]; dsimp only; split <;> omega) hz2
      exact ⟨st3, hrun, sameId_trans hsame ⟨rfl, rfl, rfl, rfl, rfl, rfl⟩, hnn3⟩

/-- The starting energies each roster member sees when their turn comes
in the marathon loop (later duplicates of a runner see the energy left
by their earlier run). -/
def marathonTrace (s : Store) (kms : Nat) : List RId → List ℤ
  | [] => []
  | rid :: rest =>
    (s rid).energy ::
      match simKms (s rid) 0 kms with
      | .ok (_, st2) => marathonTrace (updStore s rid st2) kms rest
      | .error _ => []

end RunnerSim

namespace RunnerSim

/-- Reading back the runner just written. -/
theorem updStore_self (s : Store) (rid : RId) (st : RunnerSt) :
    updStore s rid st rid = st := by
  simp [updStore]

/-- Reading another runner after a write. -/
theorem updStore_other (s : Store) {x rid : RId} (st : RunnerSt) (h : x ≠ rid) :
    updStore s rid st x = s x := by
  simp [updStore, h]

/-- Full specification of the marathon loop over a roster: it succeeds,
produces one `(runner, result)` pair per roster member in roster order,
only changes runner energies (never identity or capability fields),
leaves processed runners with nonnegative energy, does not touch
runners outside the roster, and marks the `j`-th roster member `"DNF"`
exactly when the energy they start their turn with reaches `0` at one of
the `kms` pre-kilometer checks — otherwise their result is the numeric
time `kms * round(1000 / endurance_speed, 2)`. -/
theorem marathonGo_spec (kms : Nat) (ids : List RId) (s : Store)
    (hval : ∀ rid ∈ ids,
      100 ≤ (s rid).maxEnergy ∧ (s rid).enduranceSpeed ≠ 0 ∧ 0 ≤ (s rid).energy) :
    ∃ res s2, marathonGo s kms ids = Except.ok (res, s2) ∧
      res.map Prod.fst = ids ∧
      (∀ rid, sameId (s2 rid) (s rid)) ∧
      (∀ rid ∈ ids, 0 ≤ (s2 rid).energy) ∧
      (∀ rid, rid ∉ ids → s2 rid = s rid) ∧
      (∀ j, j < ids.length →
        ((res.getD j (0, .dnf)).2 = .dnf ↔
          ∃ i, i < kms ∧ energyAfter ((marathonTrace s kms ids).getD j 0) i = 0) ∧
        ((res.getD j (0, .dnf)).2 ≠ .dnf →
          (res.getD j (0, .dnf)).2 =
            .num ((kms : ℚ) * pyRound2 (1000 / (s (ids.getD j 0)).enduranceSpeed)))) := by
  induction ids generalizing s with
  | nil =>
    exact ⟨[], s, rfl, rfl, fun rid => sameId_refl _, by simp, fun rid _ => rfl, by simp⟩
  | cons rid rest ih =>
    obtain ⟨hme, hend, hnn⟩ := hval rid (List.mem_cons_self rid rest)
    by_cases hfin : ∀ i < kms, 0 < energyAfter (s rid).energy i
    · -- the head runner finishes
      have hsim := simKms_finish (s rid) 0 kms hend hme hfin
      rw [zero_add] at hsim
      set st2 : RunnerSt :=
        { s rid with energy := energyAfter (s rid).energy kms } with hst2
      have hval2 : ∀ x ∈ rest,
          100 ≤ (updStore s rid st2 x).maxEnergy ∧
          (updStore s rid st2 x).enduranceSpeed ≠ 0 ∧ 0 ≤ (updStore s rid st2 x).energy := by
        intro x hx
        by_cases hxr : x = rid
        · subst hxr
          rw [updStore_self, hst2]
          exact ⟨hme, hend, energyAfter_nonneg hnn kms⟩
        · rw [updStore_other s _ hxr]
          exact hval x (List.mem_cons_of_mem _ hx)
      obtain ⟨res, s3, hrun, hfst, hsame, hnn3, hout, hspec⟩ := ih (updStore s rid st2) hval2
      refine ⟨(rid, .num ((kms : ℚ) * pyRound2 (1000 / (s rid).enduranceSpeed))) :: res, s3,
        ?_, ?_, ?_, ?_, ?_, ?_⟩
      · rw [marathonGo, hsim]
        dsimp only
        rw [hrun]
      · simp [hfst]
      · intro x
        refine sameId_trans (hsame x) ?_
        by_cases hxr : x = rid
        · subst hxr
          rw [updStore_self, hst2]
          exact ⟨rfl, rfl, rfl, rfl, rfl, rfl⟩
        · rw [updStore_other s _ hxr]
          exact sameId_refl _
      · intro x hx
        rcases List.mem_cons.mp hx with hxr | hxrest
        · subst hxr
          by_cases hxin : x ∈ rest
          · exact hnn3 x hxin
          · rw [hout x hxin, updStore_self, hst2]
            exact energyAfter_nonneg hnn kms
        · exact hnn3 x hxrest
      · intro x hx
        have hxr : x ≠ rid := fun h => hx (h ▸ List.mem_cons_self rid rest)
        have hxrest : x ∉ rest := fun h => hx (List.mem_cons_of_mem _ h)
        rw [hout x hxrest, updStore_other s _ hxr]
      · intro j hj
        cases j with
        | zero =>
          constructor
          · simp only [List.getD_cons_zero]
            constructor
            · intro h
              exact absurd h (num_ne_dnf _)
            · rintro ⟨i, hi, hzi⟩
              have htr : (marathonTrace s kms (rid :: rest)).getD 0 0 = (s rid).energy := by
                rw [marathonTrace]
                rfl
              rw [htr] at hzi
              exact absurd hzi (ne_of_gt (hfin i hi))
          · intro _
            simp only [List.getD_cons_zero]
        | succ j =>
          have hj2 : j < rest.length := by simpa using hj
          obtain ⟨hiff, hnum⟩ := hspec j hj2
          have htr : (marathonTrace s kms (rid :: rest)).getD (j + 1) 0 =
              (marathonTrace (updStore s rid st2) kms rest).getD j 0 := by
            rw [marathonTrace, hsim]
            dsimp only
            rw [List.getD_cons_succ]
          have hendeq : (updStore s rid st2 (rest.getD j 0)).enduranceSpeed =
              (s (rest.getD j 0)).enduranceSpeed := by
            by_cases hxr : rest.getD j 0 = rid
            · rw [hxr, updStore_self, hst2]
            · rw [updStore_other s _ hxr]
          constructor
          · simpa only [List.getD_cons_succ, htr] using hiff
          · intro hne
            simp only [List.getD_cons_succ] at hne ⊢
            rw [hnum hne, hendeq]
    · -- the head runner runs out of energy at some checked kilometer
      push_neg at hfin
      obtain ⟨i0, hi0, hz0⟩ := hfin
      have hz0' : energyAfter (s rid).energy i0 = 0 :=
        le_antisymm hz0 (energyAfter_nonneg hnn i0)
      obtain ⟨st2, hsim, hsame2, hnn2⟩ :=
        simKms_dnf (s rid) 0 kms hend hme hnn ⟨i0, hi0, hz0'⟩
      have hval2 : ∀ x ∈ rest,
          100 ≤ (updStore s rid st2 x).maxEnergy ∧
          (updStore s rid st2 x).enduranceSpeed ≠ 0 ∧ 0 ≤ (updStore s rid st2 x).energy := by
        intro x hx
        by_cases hxr : x = rid
        · subst hxr
          rw [updStore_self]
          refine ⟨?_, ?_, hnn2⟩
          · rw [hsame2.2.2.2.2.2]
            exact hme
          · rw [hsame2.2.2.2.2.1]
            exact hend
        · rw [updStore_other s _ hxr]
          exact hval x (List.mem_cons_of_mem _ hx)
      obtain ⟨res, s3, hrun, hfst, hsame, hnn3, hout, hspec⟩ := ih (updStore s rid st2) hval2
      refine ⟨(rid, .dnf) :: res, s3, ?_, ?_, ?_, ?_, ?_, ?_⟩
      · rw [marathonGo, hsim]
        dsimp only
        rw [hrun]
      · simp [hfst]
      · intro x
        refine sameId_trans (hsame x) ?_
        by_cases hxr : x = rid
        · subst hxr
          rw [updStore_self]
          exact hsame2
        · rw [updStore_other s _ hxr]
          exact sameId_refl _
      · intro x hx
        rcases List.mem_cons.mp hx with hxr | hxrest
        · subst hxr
          by_cases hxin : x ∈ rest
          · exact hnn3 x hxin
          · rw [hout x hxin, updStore_self]
            exact hnn2
        · exact hnn3 x hxrest
      · intro x hx
        have hxr : x ≠ rid := fun h => hx (h ▸ List.mem_cons_self rid rest)
        have hxrest : x ∉ rest := fun h => hx (List.mem_cons_of_mem _ h)
        rw [hout x hxrest, updStore_other s _ hxr]
      · intro j hj
        cases j with
        | zero =>
          constructor
          · simp only [List.getD_cons_zero]
            constructor
            · intro _
              refine ⟨i0, hi0, ?_⟩
              have htr : (marathonTrace s kms (rid :: rest)).getD 0 0 = (s rid).energy := by
                rw [marathonTrace]
                rfl
              rw [htr]
              exact hz0'
            · intro _
              trivial
          · intro hne
            simp only [List.getD_cons_zero] at hne
            exact absurd rfl hne
        | succ j =>
          have hj2 : j < rest.length := by simpa using hj
          obtain ⟨hiff, hnum⟩ := hspec j hj2
          have htr : (marathonTrace s kms (rid :: rest)).getD (j + 1) 0 =
              (marathonTrace (updStore s rid st2) kms rest).getD j 0 := by
            rw [marathonTrace, hsim]
            dsimp only
            rw [List.getD_cons_succ]
          have hendeq : (updStore s rid st2 (rest.getD j 0)).enduranceSpeed =
              (s (rest.getD j 0)).enduranceSpeed := by
            by_cases hxr : rest.getD j 0 = rid
            · rw [hxr, updStore_self]
              exact hsame2.2.2.2.2.1
            · rw [updStore_other s _ hxr]
          constructor
          · simpa only [List.getD_cons_succ, htr] using hiff
          · intro hne
            simp only [List.getD_cons_succ] at hne ⊢
            rw [hnum hne, hendeq]

end RunnerSim

namespace RunnerSim

/-! ### Claims C2 and C10 -/

/-- Claim C2: for every marathon race built by `Race.__init__` (hence
with positive distance) over runners with admissible state,
`conduct_race` returns one `(runner, result)` pair per roster member in
roster iteration order; the `j`-th runner is `"DNF"` iff the energy they
carry into their simulation reaches `0` at one of the
`ceil(distance)` pre-kilometer checks, and otherwise their result is the
numeric time of `ceil(distance)` accumulated `run_race("long", 1.0)`
calls (each kilometer also draining 100 energy) — a runner with exactly
enough energy finishes with a numeric time. -/
theorem c2_marathon_conduct_race_spec (s : Store) (d : ℚ) (ids : List RId) (r : Race)
    (res : List (RId × RaceTime)) (s2 : Store)
    (hr : raceInit d ids "long" = Except.ok r)
    (hval : ∀ rid ∈ ids,
      100 ≤ (s rid).maxEnergy ∧ (s rid).enduranceSpeed ≠ 0 ∧ 0 ≤ (s rid).energy)
    (hrun : conductRace s r = Except.ok (res, s2)) :
    res.map Prod.fst = ids ∧
    (∀ j, j < ids.length →
      ((res.getD j (0, .dnf)).2 = .dnf ↔
        ∃ i, i < (Rat.ceil d).toNat ∧
          energyAfter ((marathonTrace s (Rat.ceil d).toNat ids).getD j 0) i = 0) ∧
      ((res.getD j (0, .dnf)).2 ≠ .dnf →
        (res.getD j (0, .dnf)).2 =
          .num (((Rat.ceil d).toNat : ℚ) *
            pyRound2 (1000 / (s (ids.getD j 0)).enduranceSpeed)))) := by
  obtain ⟨_, _, rfl⟩ := raceInit_ok hr
  rw [conductRace] at hrun
  rw [if_neg (by decide : ¬("long" : String) = "short"), if_pos rfl] at hrun
  obtain ⟨res', s2', hgo, hfst, _, _, _, hspec⟩ :=
    marathonGo_spec (Rat.ceil d).toNat ids s hval
  rw [hgo] at hrun
  injection hrun with hpair
  injection hpair with hres hs2
  subst hres
  exact ⟨hfst, hspec⟩

/-- The marathon race `Race.__init__` builds for distance 4 and roster
`[0, 1]`. -/
def wLongRace : Race :=
  { runners := [0, 1], raceType := "long", distance := 4, energyPerKm := 100,
    maximumParticipants := 16, timeMultiplier := 1.2 }

/-- Witness for C2: on a concrete 4 km marathon both runners finish and
the result list covers the roster in order. -/
theorem c2_marathon_conduct_race_spec_witness :
    (conductRace wStore wLongRace).map (fun p => p.1.map Prod.fst) = Except.ok [0, 1] := by
  have hval : ∀ rid ∈ ([0, 1] : List RId),
      100 ≤ (wStore rid).maxEnergy ∧ (wStore rid).enduranceSpeed ≠ 0 ∧
        0 ≤ (wStore rid).energy := by
    intro rid hrid
    fin_cases hrid <;> norm_num [wStore, wRunner]
  have hr : raceInit 4 [0, 1] "long" = Except.ok wLongRace := by
    norm_num [raceInit, wLongRace, show ("long" : String) ≠ "short" from by decide]
  obtain ⟨res, s2, hgo, hfst, _, _, _, _⟩ :=
    marathonGo_spec (Rat.ceil (4 : ℚ)).toNat [0, 1] wStore hval
  have hrun : conductRace wStore wLongRace = Except.ok (res, s2) := by
    rw [conductRace, if_neg (by decide : ¬(wLongRace.raceType = "short"))]
    rw [if_pos (by decide : wLongRace.raceType = "long")]
    exact hgo
  have hmain := c2_marathon_conduct_race_spec wStore 4 [0, 1] wLongRace res s2 hr hval hrun
  rw [hrun]
  simp [Except.map, hmain.1]

/-- Claim C10: for every race whose construction succeeded (so the
distance is positive and the race type is `"short"` or `"long"`) over
validated runners (full `max_energy`, nonzero speeds, nonnegative
energy), `conduct_race` never raises: every internal
`run_race("short", d)`, `run_race("long", 1.0)` and `drain_energy(100)`
call meets its callee's preconditions, so the error branches are
unreachable and a result is always returned. -/
theorem c10_conduct_race_total (s : Store) (d : ℚ) (ids : List RId) (rt : String) (r : Race)
    (hr : raceInit d ids rt = Except.ok r)
    (hval : ∀ rid ∈ ids, (s rid).maxEnergy = 1000 ∧ (s rid).sprintSpeed ≠ 0 ∧
      (s rid).enduranceSpeed ≠ 0 ∧ 0 ≤ (s rid).energy) :
    ∃ out, conductRace s r = Except.ok out := by
  obtain ⟨hd, hrt, rfl⟩ := raceInit_ok hr
  rcases hrt with hrt | hrt
  · subst hrt
    rw [conductRace, if_pos rfl,
      shortGo_spec s d _ ids hd (fun rid hrid => (hval rid hrid).2.1)]
    exact ⟨_, rfl⟩
  · subst hrt
    rw [conductRace, if_neg (by decide : ¬("long" : String) = "short"), if_pos rfl]
    obtain ⟨res, s2, hgo, _⟩ :=
      marathonGo_spec (Rat.ceil d).toNat ids s
        (fun rid hrid => ⟨by rw [(hval rid hrid).1]; norm_num, (hval rid hrid).2.2.1,
          (hval rid hrid).2.2.2⟩)
    exact ⟨(res, s2), hgo⟩

/-- Witness for C10 at a concrete short race. -/
theorem c10_conduct_race_total_witness :
    (conductRace wStore wShortRace).isOk = true := by
  obtain ⟨out, hout⟩ := c10_conduct_race_total wStore 1 [0, 1] "short" wShortRace
    (by norm_num [raceInit, wShortRace])
    (by
      intro rid hrid
      fin_cases hrid <;> norm_num [wStore, wRunner])
  rw [hout]
  rfl

end RunnerSim

namespace RunnerSim

/-! ### Claim C5 -/

/-- A full 1000-point recovery succeeds on a full-capacity runner and, when
the runner's energy is nonnegative, restores exactly `1000`. -/
theorem recoverEnergy_1000 {st : RunnerSt} (hme : st.maxEnergy = 1000) :
    ∃ st2, recoverEnergy st 1000 = Except.ok st2 ∧ sameId st2 st ∧
      (0 ≤ st.energy → st2.energy = 1000) := by
  have hnot : ¬¬((1 : ℤ) ≤ 1000 ∧ 1000 ≤ st.maxEnergy) :=
    not_not_intro (And.intro (by norm_num) (by rw [hme]))
  refine ⟨{ st with energy := if st.maxEnergy < st.energy + 1000 then st.maxEnergy
                              else st.energy + 1000 },
    by rw [recoverEnergy, if_neg hnot], ⟨rfl, rfl, rfl, rfl, rfl, rfl⟩, ?_⟩
  intro h0
  dsimp only
  rw [hme]
  split <;> omega

/-- The DNF-recovery loop of `conduct_competition` always succeeds on
full-capacity runners. -/
theorem recoverDNFs_total (res : List (RId × RaceTime)) (s2 : Store)
    (hmax : ∀ p ∈ res, (s2 p.1).maxEnergy = 1000) :
    ∃ s3, recoverDNFs s2 res = Except.ok s3 := by
  induction res generalizing s2 with
  | nil => exact ⟨s2, rfl⟩
  | cons p rest ih =>
    obtain ⟨rid, t⟩ := p
    by_cases ht : t = RaceTime.dnf
    · subst ht
      obtain ⟨st2, hrec, hsame, _⟩ :=
        recoverEnergy_1000 (hmax (rid, .dnf) (List.mem_cons_self _ _))
      obtain ⟨s3, hrest⟩ := ih (updStore s2 rid st2) (by
        intro q hq
        by_cases hqr : q.1 = rid
        · rw [hqr, updStore_self, hsame.2.2.2.2.2]
          exact hmax (rid, .dnf) (List.mem_cons_self _ _)
        · rw [updStore_other s2 _ hqr]
          exact hmax q (List.mem_cons_of_mem _ hq))
      refine ⟨s3, ?_⟩
      rw [recoverDNFs, if_pos rfl, hrec]
      exact hrest
    · obtain ⟨s3, hrest⟩ := ih s2 (fun q hq => hmax q (List.mem_cons_of_mem _ hq))
      refine ⟨s3, ?_⟩
      rw [recoverDNFs, if_neg ht]
      exact hrest

/-- Behaviour of the DNF-recovery loop: every runner whose result is
`"DNF"` ends at exactly `1000` energy, every finisher's state is left
untouched, and runners outside the result list are untouched. -/
theorem recoverDNFs_spec (res : List (RId × RaceTime)) (s2 s3 : Store)
    (hrec : recoverDNFs s2 res = Except.ok s3)
    (hnd : (res.map Prod.fst).Nodup)
    (hmax : ∀ p ∈ res, (s2 p.1).maxEnergy = 1000)
    (hen : ∀ p ∈ res, 0 ≤ (s2 p.1).energy) :
    (∀ p ∈ res, (p.2 = .dnf → (s3 p.1).energy = 1000) ∧
      (p.2 ≠ .dnf → s3 p.1 = s2 p.1)) ∧
    (∀ rid, rid ∉ res.map Prod.fst → s3 rid = s2 rid) := by
  induction res generalizing s2 with
  | nil =>
    rw [recoverDNFs] at hrec
    injection hrec with h
    subst h
    exact ⟨by simp, fun rid _ => rfl⟩
  | cons p rest ih =>
    obtain ⟨rid, t⟩ := p
    simp only [List.map_cons, List.nodup_cons] at hnd
    obtain ⟨hrid, hndrest⟩ := hnd
    by_cases ht : t = RaceTime.dnf
    · subst ht
      obtain ⟨st2, hrec1, hsame, h1000⟩ :=
        recoverEnergy_1000 (hmax (rid, .dnf) (List.mem_cons_self _ _))
      rw [recoverDNFs, if_pos rfl, hrec1] at hrec
      have hmax2 : ∀ q ∈ rest, (updStore s2 rid st2 q.1).maxEnergy = 1000 := by
        intro q hq
        have hqr : q.1 ≠ rid := fun h => hrid (h ▸ List.mem_map_of_mem Prod.fst hq)
        rw [updStore_other s2 _ hqr]
        exact hmax q (List.mem_cons_of_mem _ hq)
      have hen2 : ∀ q ∈ rest, 0 ≤ (updStore s2 rid st2 q.1).energy := by
        intro q hq
        have hqr : q.1 ≠ rid := fun h => hrid (h ▸ List.mem_map_of_mem Prod.fst hq)
        rw [updStore_other s2 _ hqr]
        exact hen q (List.mem_cons_of_mem _ hq)
      obtain ⟨hspec, hout⟩ := ih (updStore s2 rid st2) hrec hndrest hmax2 hen2
      constructor
      · intro q hq
        rcases List.mem_cons.mp hq with hq1 | hq2
        · subst hq1
          constructor
          · intro _
            rw [hout rid hrid, updStore_self]
            exact h1000 (hen (rid, .dnf) (List.mem_cons_self _ _))
          · intro hne
            exact absurd rfl hne
        · have hqr : q.1 ≠ rid := fun h => hrid (h ▸ List.mem_map_of_mem Prod.fst hq2)
          refine ⟨(hspec q hq2).1, fun hne => ?_⟩
          rw [(hspec q hq2).2 hne, updStore_other s2 _ hqr]
      · intro x hx
        have hxr : x ≠ rid := fun h => hx (by simp [h])
        have hxrest : x ∉ rest.map Prod.fst := fun h => hx (by simp [h])
        rw [hout x hxrest, updStore_other s2 _ hxr]
    · rw [recoverDNFs, if_neg ht] at hrec
      obtain ⟨hspec, hout⟩ := ih s2 hrec hndrest
        (fun q hq => hmax q (List.mem_cons_of_mem _ hq))
        (fun q hq => hen q (List.mem_cons_of_mem _ hq))
      constructor
      · intro q hq
        rcases List.mem_cons.mp hq with hq1 | hq2
        · subst hq1
          exact ⟨fun hdnf => absurd hdnf ht, fun _ => hout rid hrid⟩
        · exact hspec q hq2
      · intro x hx
        exact hout x (fun h => hx (by simp [h]))

/-- Claim C5: after a marathon inside a round of `conduct_competition`,
the recovery loop restores every runner whose marathon result is `"DNF"`
to exactly `1000` energy (full), regardless of the energy the marathon
left them, while every finisher keeps exactly the post-marathon state —
their energy is not reset.  The resulting store is the one the rest of
the round and the next round run on. -/
theorem c5_dnf_energy_recovery (s : Store) (r : Race) (res : List (RId × RaceTime))
    (s2 s3 : Store)
    (hlong : r.raceType = "long")
    (hrace : conductRace s r = Except.ok (res, s2))
    (hrec : recoverDNFs s2 res = Except.ok s3)
    (hnd : (res.map Prod.fst).Nodup)
    (hmax : ∀ p ∈ res, (s2 p.1).maxEnergy = 1000)
    (hen : ∀ p ∈ res, 0 ≤ (s2 p.1).energy) :
    ∀ p ∈ res, (p.2 = .dnf → (s3 p.1).energy = 1000) ∧
      (p.2 ≠ .dnf → s3 p.1 = s2 p.1) :=
  (recoverDNFs_spec res s2 s3 hrec hnd hmax hen).1

/-- The 11 km marathon race for the C5 witness. -/
def wLong11 : Race :=
  { runners := [0, 1], raceType := "long", distance := 11, energyPerKm := 100,
    maximumParticipants := 16, timeMultiplier := 1.2 }

/-- The store an 11 km marathon on `wStore` leaves behind: both runners
out of energy. -/
def wS2 : Store :=
  updStore (updStore wStore 0
    { name := "A", age := 20, country := "Australia", sprintSpeed := 5,
      enduranceSpeed := 4, energy := 0, maxEnergy := 1000 }) 1
    { name := "B", age := 20, country := "Australia", sprintSpeed := 4,
      enduranceSpeed := 2, energy := 0, maxEnergy := 1000 }

/-- The store after DNF recovery: both runners back to full energy. -/
def wS3 : Store :=
  updStore (updStore wS2 0
    { name := "A", age := 20, country := "Australia", sprintSpeed := 5,
      enduranceSpeed := 4, energy := 1000, maxEnergy := 1000 }) 1
    { name := "B", age := 20, country := "Australia", sprintSpeed := 4,
      enduranceSpeed := 2, energy := 1000, maxEnergy := 1000 }

/-- Witness for C5: on a concrete 11 km marathon both runners DNF with
zero energy left and end at exactly `1000` after recovery. -/
theorem c5_dnf_energy_recovery_witness :
    (wS3 0).energy = 1000 ∧ (wS3 1).energy = 1000 := by
  have hrace : conductRace wStore wLong11 = Except.ok ([(0, .dnf), (1, .dnf)], wS2) := by
    norm_num [conductRace, marathonGo, simKms, runRace, drainEnergy, pyRound2, roundHalfEven,
      ratFloor_eq, ratCeil_eq, intCeil_negFloor, Int.toNat_ofNat, updStore, wStore, wRunner,
      wLong11, wS2, -Int.self_sub_floor,
      show ("long" : String) ≠ "short" from by decide]
  have hrec : recoverDNFs wS2 [(0, .dnf), (1, .dnf)] = Except.ok wS3 := by
    norm_num [recoverDNFs, recoverEnergy, updStore, wS2, wS3, wStore, wRunner]
  have h := c5_dnf_energy_recovery wStore wLong11 [(0, .dnf), (1, .dnf)] wS2 wS3
    rfl hrace hrec (by decide)
    (by intro p hp; fin_cases hp <;> norm_num [wS2, updStore, wStore, wRunner])
    (by intro p hp; fin_cases hp <;> norm_num [wS2, updStore, wStore, wRunner])
  exact ⟨(h (0, .dnf) (by simp)).1 rfl, (h (1, .dnf) (by simp)).1 rfl⟩

end RunnerSim

namespace RunnerSim

/-! ### Claims C1 and C6 -/

/-- Claim C1 (divergence witness): `update_leaderboard` crashes on a
race result mixing a numeric time with `"DNF"` — the sort compares a
float against the string `"DNF"` and raises `TypeError` — while a
DNF-only result list is processed without error, confirming that only
the mixed case (which every partially-failed marathon produces) breaks
the documented "DNF sorts last" behaviour. -/
theorem c1_mixed_results_raise_typeError :
    updateLeaderboard wStore (initLeaderboard 2) [(0, .num 300), (1, .dnf)] =
      Except.error .typeError ∧
    (updateLeaderboard wStore (initLeaderboard 2) [(0, .dnf), (1, .dnf)]).isOk = true := by
  constructor
  · norm_num [updateLeaderboard, pySort, pyInsert, timeLt]
  · norm_num [updateLeaderboard, pySort, pyInsert, timeLt, buildScoresAux, dictSet,
      dictLookup, addPrior, sortDescScore, List.insertionSort, List.orderedInsert,
      assignSlots, initLeaderboard, List.range_succ, getOrdinal, natStr, natDigitsF,
      ordSuffix, wStore, wRunner, Except.isOk, Except.toBool]

/-- Counterexample for C6: `Race.__init__` performs no roster size or
duplicate check — it accepts nine runners into a short race whose
maximum is eight, and accepts the same runner twice. -/
theorem c6_unchecked_roster_counterexample :
    (raceInit 1 (List.range 9) "short").map
        (fun r => (r.runners.length, r.maximumParticipants)) = Except.ok (9, 8) ∧
    (raceInit 1 [0, 0] "short").map Race.runners = Except.ok [0, 0] ∧
    ¬ ([0, 0] : List RId).Nodup := by
  refine ⟨?_, ?_, by decide⟩ <;>
    norm_num [raceInit, Except.map]

/-- Claim C6 (amended): the roster invariant — size within the maximum
and no duplicate runner — is preserved by every successful `add_runner`
call; it is `add_runner` alone that enforces it, since construction
accepts arbitrary rosters. -/
theorem c6_add_runner_preserves_invariant (r r2 : Race) (rid : RId)
    (hlen : r.runners.length ≤ r.maximumParticipants)
    (hnd : r.runners.Nodup)
    (hadd : addRunner r rid = Except.ok r2) :
    r2.runners.length ≤ r2.maximumParticipants ∧ r2.runners.Nodup := by
  rw [addRunner] at hadd
  split at hadd
  · cases hadd
  · next hfull =>
    split at hadd
    · cases hadd
    · next hdup =>
      injection hadd with h
      subst h
      constructor
      · simp only [List.length_append, List.length_singleton]
        omega
      · simp [List.nodup_append, hnd, hdup]

/-- Witness for C6 at a concrete race and runner. -/
theorem c6_add_runner_preserves_invariant_witness :
    ({ runners := [0, 1, 2], raceType := "short", distance := 1, energyPerKm := 100,
       maximumParticipants := 8, timeMultiplier := 1.2 } : Race).runners.length ≤ 8 ∧
    ([0, 1, 2] : List RId).Nodup := by
  have h := c6_add_runner_preserves_invariant wShortRace
    { runners := [0, 1, 2], raceType := "short", distance := 1, energyPerKm := 100,
      maximumParticipants := 8, timeMultiplier := 1.2 } 2
    (by decide) (by decide) rfl
  exact ⟨h.1, h.2⟩

end RunnerSim

namespace RunnerSim

/-! ### Claim C3 -/

/-- Numeric value of a race time (only used on numeric results). -/
def timeVal : RaceTime → ℚ
  | .num q => q
  | .dnf => 0

/-- Comparison of results by time, for describing what `sorted` returns
on all-numeric result lists. -/
def timeLe (a b : RId × RaceTime) : Prop := timeVal a.2 ≤ timeVal b.2

instance : DecidableRel timeLe := fun a b => by
  unfold timeLe
  infer_instance

instance : IsTotal (RId × RaceTime) timeLe :=
  ⟨fun a b => le_total (timeVal a.2) (timeVal b.2)⟩

instance : IsTrans (RId × RaceTime) timeLe :=
  ⟨fun _ _ _ hab hbc => le_trans hab hbc⟩

/-- On all-numeric lists, the fallible Python sort is the stable
ascending insertion of the head into the sorted tail. -/
theorem pyInsert_allNum (x : RId × RaceTime) (l : List (RId × RaceTime))
    (hx : x.2 ≠ .dnf) (hl : ∀ p ∈ l, p.2 ≠ .dnf) :
    pyInsert x l = Except.ok (List.orderedInsert timeLe x l) := by
  induction l with
  | nil => rfl
  | cons y ys ih =>
    obtain ⟨qx, hqx⟩ : ∃ q, x.2 = .num q := by
      cases hx2 : x.2 with
      | num q => exact ⟨q, rfl⟩
      | dnf => exact absurd hx2 hx
    obtain ⟨qy, hqy⟩ : ∃ q, y.2 = .num q := by
      cases hy2 : y.2 with
      | num q => exact ⟨q, rfl⟩
      | dnf => exact absurd hy2 (hl y (List.mem_cons_self y ys))
    have hcmp : timeLt y.2 x.2 = Except.ok (decide (qy < qx)) := by
      rw [hqx, hqy]
      rfl
    rw [pyInsert, hcmp]
    dsimp only
    by_cases hlt : qy < qx
    · rw [if_pos (by simpa using hlt), ih (fun p hp => hl p (List.mem_cons_of_mem _ hp))]
      dsimp only
      rw [List.orderedInsert, if_neg]
      unfold timeLe
      rw [hqx, hqy]
      simpa [timeVal] using hlt
    · rw [if_neg (by simpa using hlt)]
      rw [List.orderedInsert, if_pos]
      unfold timeLe
      rw [hqx, hqy]
      simpa [timeVal] using le_of_not_lt hlt

/-- On all-numeric lists, the Python sort succeeds and returns the
stable ascending insertion sort of the results by time. -/
theorem pySort_allNum (l : List (RId × RaceTime)) (hl : ∀ p ∈ l, p.2 ≠ .dnf) :
    pySort l = Except.ok (List.insertionSort timeLe l) := by
  induction l with
  | nil => rfl
  | cons x xs ih =>
    rw [pySort, ih (fun p hp => hl p (List.mem_cons_of_mem _ hp))]
    have hm : ∀ p ∈ List.insertionSort timeLe xs, p.2 ≠ .dnf := by
      intro p hp
      exact hl p (List.mem_cons_of_mem _ ((List.perm_insertionSort timeLe xs).mem_iff.mp hp))
    exact pyInsert_allNum x _ (hl x (List.mem_cons_self x xs)) hm

/-- On all-`"DNF"` lists, the Python sort succeeds and keeps the list
unchanged (every `"DNF" < "DNF"` comparison is false). -/
theorem pyInsert_allDNF (x : RId × RaceTime) (l : List (RId × RaceTime))
    (hx : x.2 = .dnf) (hl : ∀ p ∈ l, p.2 = .dnf) :
    pyInsert x l = Except.ok (x :: l) := by
  obtain ⟨rx, tx⟩ := x
  cases hx
  cases l with
  | nil => rfl
  | cons y ys =>
    obtain ⟨ry, ty⟩ := y
    have hy : ty = RaceTime.dnf := hl (ry, ty) (by simp)
    cases hy
    rfl

theorem pySort_allDNF (l : List (RId × RaceTime)) (hl : ∀ p ∈ l, p.2 = .dnf) :
    pySort l = Except.ok l := by
  induction l with
  | nil => rfl
  | cons x xs ih =>
    rw [pySort, ih (fun p hp => hl p (List.mem_cons_of_mem _ hp))]
    exact pyInsert_allDNF x xs (hl x (List.mem_cons_self x xs))
      (fun p hp => hl p (List.mem_cons_of_mem _ hp))

/-- The per-race scores `update_leaderboard` assigns, written as a plain
list: sorted position `i` (counting from `i0`) scores `n - i - 1` when
numeric and `0` when `"DNF"`. -/
def scoresList (s : Store) (n : Nat) : Nat → List (RId × RaceTime) → List (String × ℤ)
  | _, [] => []
  | i, (rid, t) :: rest =>
    ((s rid).name, if t = .dnf then 0 else (n : ℤ) - i - 1) :: scoresList s n (i + 1) rest

/-- Setting a fresh key appends to an insertion-ordered dict. -/
theorem dictSet_append {α β : Type} [DecidableEq α] (l : List (α × β)) (k : α) (v : β)
    (h : k ∉ l.map Prod.fst) : dictSet l k v = l ++ [(k, v)] := by
  induction l with
  | nil => rfl
  | cons p rest ih =>
    simp only [List.map_cons, List.mem_cons, not_or] at h
    rw [dictSet, if_neg (fun he => h.1 he.symm), ih h.2]
    rfl

/-- With pairwise-distinct runner names, the `name2score` dict built by
`update_leaderboard` is exactly the position-score list. -/
theorem buildScoresAux_eq (s : Store) (n : Nat) (m : List (RId × RaceTime)) :
    ∀ (i : Nat) (acc : List (String × ℤ)),
      (acc.map Prod.fst ++ m.map (fun p => (s p.1).name)).Nodup →
      buildScoresAux s n i acc m = acc ++ scoresList s n i m := by
  induction m with
  | nil =>
    intro i acc _
    simp [buildScoresAux, scoresList]
  | cons p rest ih =>
    intro i acc hnd
    obtain ⟨rid, t⟩ := p
    rw [buildScoresAux, scoresList]
    have hsplit : (s rid).name ∉ acc.map Prod.fst := by
      rw [List.nodup_append] at hnd
      intro hmem
      exact hnd.2.2 hmem (by simp)
    rw [dictSet_append acc _ _ hsplit]
    rw [ih (i + 1) (acc ++ [((s rid).name, if t = RaceTime.dnf then 0
      else (n : ℤ) - i - 1)]) (by simpa [List.append_assoc] using hnd)]
    simp

/-- The keys of the position-score list are the runner names in sorted
order. -/
theorem scoresList_map_fst (s : Store) (n : Nat) :
    ∀ (i : Nat) (m : List (RId × RaceTime)),
      (scoresList s n i m).map Prod.fst = m.map (fun p => (s p.1).name)
  | _, [] => rfl
  | i, (rid, t) :: rest => by
    rw [scoresList]
    simp [scoresList_map_fst s n (i + 1) rest]

/-- On an all-numeric sorted list the assigned scores are, by position,
`n - i0 - 1, n - i0 - 2, …`. -/
theorem scoresList_snd_allNum (s : Store) (n : Nat) (m : List (RId × RaceTime)) :
    ∀ (i : Nat), (∀ p ∈ m, p.2 ≠ .dnf) →
      (scoresList s n i m).map Prod.snd =
        (List.range m.length).map (fun j : ℕ => (n : ℤ) - (i : ℤ) - (j : ℤ) - 1) := by
  induction m with
  | nil =>
    intro i _
    rfl
  | cons p rest ih =>
    intro i hnum
    obtain ⟨rid, t⟩ := p
    rw [scoresList, if_neg (hnum (rid, t) (List.mem_cons_self _ _))]
    rw [List.map_cons, ih (i + 1) (fun q hq => hnum q (List.mem_cons_of_mem _ hq))]
    rw [List.length_cons, List.range_succ_eq_map, List.map_cons, List.map_map]
    congr 1
    · push_cast
      ring
    · apply List.map_congr_left
      intro j _
      simp only [Function.comp_apply]
      push_cast
      ring

/-- On an all-`"DNF"` list every assigned score is `0`. -/
theorem scoresList_snd_allDNF (s : Store) (n : Nat) :
    ∀ (i : Nat) (m : List (RId × RaceTime)), (∀ p ∈ m, p.2 = .dnf) →
      ∀ p ∈ scoresList s n i m, p.2 = 0
  | i, [], _ => by simp [scoresList]
  | i, (rid, t) :: rest, hdnf => by
    rw [scoresList, if_pos (hdnf (rid, t) (List.mem_cons_self _ _))]
    intro p hp
    rcases List.mem_cons.mp hp with hp1 | hp2
    · rw [hp1]
    · exact scoresList_snd_allDNF s n (i + 1) rest
        (fun q hq => hdnf q (List.mem_cons_of_mem _ hq)) p hp2

/-- Counterexample for C3: on a result set mixing numeric times with
`"DNF"`, `update_leaderboard` raises `TypeError` before assigning any
score, so a DNF runner in a mixed field is not scored `0` as claimed. -/
theorem c3_mixed_results_counterexample :
    updateLeaderboard wStore (initLeaderboard 3)
      [(0, .num 100), (1, .dnf), (2, .num 200)] = Except.error .typeError := by
  norm_num [updateLeaderboard, pySort, pyInsert, timeLt]

/-- Claim C3 (amended): for a result set with pairwise-distinct runner
names that is either all-numeric or all-`"DNF"` (mixed sets crash the
sort, see the counterexample), the per-race scores are assigned by
finishing rank: the sort orders the `N` results ascending by time and
position `i` scores `N - i - 1` — so the fastest scores `N - 1` down to
`0` for the last, the assigned score list being exactly
`[N-1, …, 1, 0]` — while an all-DNF race assigns `0` to every runner. -/
theorem c3_scoring_amended (s : Store) (res : List (RId × RaceTime))
    (hnames : (res.map (fun p => (s p.1).name)).Nodup) :
    ((∀ p ∈ res, p.2 ≠ .dnf) →
      ∃ m, pySort res = Except.ok m ∧ m.Perm res ∧ List.Sorted timeLe m ∧
        buildScoresAux s res.length 0 [] m = scoresList s res.length 0 m ∧
        (scoresList s res.length 0 m).map Prod.snd =
          (List.range res.length).map (fun j : ℕ => (res.length : ℤ) - (j : ℤ) - 1)) ∧
    ((∀ p ∈ res, p.2 = .dnf) →
      pySort res = Except.ok res ∧
      buildScoresAux s res.length 0 [] res = scoresList s res.length 0 res ∧
      ∀ p ∈ scoresList s res.length 0 res, p.2 = 0) := by
  constructor
  · intro hnum
    refine ⟨List.insertionSort timeLe res, pySort_allNum res hnum,
      List.perm_insertionSort timeLe res, List.sorted_insertionSort timeLe res, ?_, ?_⟩
    · apply buildScoresAux_eq
      simp only [List.map_nil, List.nil_append]
      exact (((List.perm_insertionSort timeLe res).map
        (fun p => (s p.1).name)).nodup_iff).mpr hnames
    · have hnum2 : ∀ p ∈ List.insertionSort timeLe res, p.2 ≠ .dnf := fun p hp =>
        hnum p ((List.perm_insertionSort timeLe res).mem_iff.mp hp)
      rw [scoresList_snd_allNum s res.length _ 0 hnum2,
        (List.perm_insertionSort timeLe res).length_eq]
      simp
  · intro hdnf
    refine ⟨pySort_allDNF res hdnf, ?_, scoresList_snd_allDNF s res.length 0 res hdnf⟩
    apply buildScoresAux_eq
    simpa using hnames

/-- Witness for C3: a concrete two-runner all-numeric race assigns the
score list `[1, 0]` in sorted order, and a concrete all-DNF race assigns
`0` to both runners. -/
theorem c3_scoring_amended_witness :
    (scoresList wStore 2 0 [(1, .num 100), (0, .num 300)]).map Prod.snd = [1, 0] ∧
    (∀ p ∈ scoresList wStore 2 0 [(0, .dnf), (1, .dnf)], p.2 = 0) := by
  have hnames : (([(0, .num 300), (1, .num 100)] : List (RId × RaceTime)).map
      (fun p => (wStore p.1).name)).Nodup := by
    decide
  have h1 := (c3_scoring_amended wStore [(0, .num 300), (1, .num 100)] hnames).1
    (by intro p hp; fin_cases hp <;> simp)
  obtain ⟨m, hsort, _, _, _, hsnd⟩ := h1
  have hm : m = [(1, .num 100), (0, .num 300)] := by
    have hev : pySort [(0, RaceTime.num 300), (1, RaceTime.num 100)] =
        Except.ok [(1, RaceTime.num 100), (0, RaceTime.num 300)] := by
      norm_num [pySort, pyInsert, timeLt]
    rw [hev] at hsort
    injection hsort with h
    exact h.symm
  subst hm
  have hnames2 : (([(0, .dnf), (1, .dnf)] : List (RId × RaceTime)).map
      (fun p => (wStore p.1).name)).Nodup := by
    decide
  have h2 := (c3_scoring_amended wStore [(0, .dnf), (1, .dnf)] hnames2).2
    (by intro p hp; fin_cases hp <;> simp)
  refine ⟨?_, h2.2.2⟩
  norm_num [List.range_succ] at hsnd
  exact hsnd

end RunnerSim

namespace RunnerSim

/-! ### Decimal ordinals: injectivity of the rank labels -/

/-- Numeric value of a digit character. -/
def digVal (c : Char) : ℕ := c.toNat - 48

/-- Parse a digit string back to the number it denotes. -/
def fromDigits (l : List Char) : ℕ := l.foldl (fun a c => 10 * a + digVal c) 0

theorem fromDigits_append_one (xs : List Char) (c : Char) :
    fromDigits (xs ++ [c]) = 10 * fromDigits xs + digVal c := by
  unfold fromDigits
  rw [List.foldl_append]
  rfl

theorem digVal_digitChar (d : ℕ) (hd : d < 10) : digVal (Nat.digitChar d) = d := by
  interval_cases d <;> decide

theorem natDigitsF_zero (fuel : ℕ) : natDigitsF fuel 0 = [] := by
  cases fuel <;> rfl

theorem fromDigits_natDigitsF :
    ∀ (fuel n : ℕ), 0 < n → n ≤ fuel → fromDigits (natDigitsF fuel n) = n := by
  intro fuel
  induction fuel with
  | zero =>
    intro n hn hle
    omega
  | succ fuel ih =>
    intro n hn hle
    rw [natDigitsF, if_neg (by omega), fromDigits_append_one,
      digVal_digitChar _ (Nat.mod_lt n (by norm_num))]
    by_cases hq : n / 10 = 0
    · rw [hq, natDigitsF_zero]
      have : n % 10 = n := Nat.mod_eq_of_lt (by omega)
      simp [fromDigits, this]
    · rw [ih (n / 10) (by omega) (by omega)]
      omega

theorem natStr_data (n : ℕ) :
    (natStr n).data = if n = 0 then ['0'] else natDigitsF n n := by
  rw [natStr]
  split <;> rfl

/-- Decimal rendering round-trips, hence is injective. -/
theorem fromDigits_natStr (n : ℕ) : fromDigits (natStr n).data = n := by
  rw [natStr_data]
  split
  · next h =>
    rw [h]
    decide
  · next h =>
    exact fromDigits_natDigitsF n n (by omega) le_rfl

theorem natStr_inj {a b : ℕ} (h : natStr a = natStr b) : a = b := by
  have := congrArg (fun s => fromDigits s.data) h
  simpa [fromDigits_natStr] using this

theorem ordSuffix_data_length (n : ℕ) : (ordSuffix n).data.length = 2 := by
  rw [ordSuffix]
  split
  · rfl
  · split
    · rfl
    · split
      · rfl
      · split <;> rfl

theorem string_data_append (a b : String) : (a ++ b).data = a.data ++ b.data := rfl

/-- Ordinal labels are distinct for distinct ranks: the ordinal string
is the decimal numeral followed by a two-character suffix. -/
theorem getOrdinal_inj {a b : ℕ} (h : getOrdinal a = getOrdinal b) : a = b := by
  have hd : (natStr a).data ++ (ordSuffix a).data = (natStr b).data ++ (ordSuffix b).data := by
    have := congrArg String.data h
    rwa [getOrdinal, getOrdinal, string_data_append, string_data_append] at this
  have hlen : (ordSuffix a).data.length = (ordSuffix b).data.length := by
    rw [ordSuffix_data_length, ordSuffix_data_length]
  obtain ⟨h1, _⟩ := List.append_inj' hd hlen
  have : natStr a = natStr b := by
    cases ha : natStr a
    cases hb : natStr b
    congr
    rw [ha, hb] at h1
    exact h1
  exact natStr_inj this

/-- The leaderboard `Competition.__init__` builds: one empty slot per
rank label `1..n`, in order. -/
theorem initLeaderboard_eq (n : ℕ) :
    initLeaderboard n = (List.range n).map (fun i => (getOrdinal (i + 1), none)) := by
  induction n with
  | zero => rfl
  | succ n ih =>
    rw [initLeaderboard, List.range_succ, List.foldl_append]
    rw [show (List.range n).foldl (fun acc i => dictSet acc (getOrdinal (i + 1)) none) [] =
      initLeaderboard n from rfl, ih]
    rw [List.foldl_cons, List.foldl_nil]
    have hfresh : getOrdinal (n + 1) ∉
        ((List.range n).map (fun i => (getOrdinal (i + 1), (none : Option (String × ℤ))))).map
          Prod.fst := by
      intro hmem
      simp only [List.map_map, List.mem_map, List.mem_range] at hmem
      obtain ⟨i, hi, heq⟩ := hmem
      have := getOrdinal_inj heq
      omega
    rw [dictSet_append _ _ _ hfresh, List.map_append]
    rfl

theorem initLeaderboard_keys_nodup (n : ℕ) :
    ((initLeaderboard n).map Prod.fst).Nodup := by
  rw [initLeaderboard_eq, List.map_map]
  have : (Prod.fst ∘ fun i => (getOrdinal (i + 1), (none : Option (String × ℤ)))) =
      fun i => getOrdinal (i + 1) := rfl
  rw [this]
  exact (List.nodup_range n).map (fun a b hab => by
    have := getOrdinal_inj hab
    omega)

end RunnerSim

namespace RunnerSim

/-! ### The leaderboard rebuild: generic lemmas -/

/-- A successful Python insert produces a permutation of the element and
the old list. -/
theorem pyInsert_perm (x : RId × RaceTime) :
    ∀ (l m : List (RId × RaceTime)), pyInsert x l = Except.ok m → m.Perm (x :: l)
  | [], m, h => by
    rw [pyInsert] at h
    injection h with h
    rw [← h]
  | y :: ys, m, h => by
    rw [pyInsert] at h
    cases hcmp : timeLt y.2 x.2 with
    | error e =>
      rw [hcmp] at h
      cases h
    | ok b =>
      rw [hcmp] at h
      dsimp only at h
      by_cases hb : b = true
      · subst hb
        rw [if_pos rfl] at h
        cases hins : pyInsert x ys with
        | error e =>
          rw [hins] at h
          cases h
        | ok t =>
          rw [hins] at h
          injection h with h
          subst h
          have := pyInsert_perm x ys t hins
          exact (this.cons y).trans (List.Perm.swap x y ys)
      · rw [if_neg hb] at h
        injection h with h
        rw [← h]
  termination_by l => l.length

/-- A successful Python sort returns a permutation of the input. -/
theorem pySort_perm :
    ∀ (l m : List (RId × RaceTime)), pySort l = Except.ok m → m.Perm l
  | [], m, h => by
    rw [pySort] at h
    injection h with h
    rw [← h]
  | x :: xs, m, h => by
    rw [pySort] at h
    cases hs : pySort xs with
    | error e =>
      rw [hs] at h
      cases h
    | ok t =>
      rw [hs] at h
      dsimp only at h
      exact (pyInsert_perm x t m h).trans ((pySort_perm xs t hs).cons x)

/-- Setting an existing key updates in place: keys and length are
unchanged. -/
theorem dictSet_keys_of_mem {α β : Type} [DecidableEq α] :
    ∀ (l : List (α × β)) (k : α) (v : β), k ∈ l.map Prod.fst →
      (dictSet l k v).map Prod.fst = l.map Prod.fst
  | [], k, v, h => by simp at h
  | p :: rest, k, v, h => by
    rw [dictSet]
    by_cases hk : p.1 = k
    · rw [if_pos hk]
      simp [hk]
    · rw [if_neg hk]
      simp only [List.map_cons, List.mem_cons] at h
      rcases h with h | h
      · exact absurd h.symm hk
      · simp [dictSet_keys_of_mem rest k v h]

/-- The carry-over loop never changes the key list of `name2score`. -/
theorem addPrior_keys :
    ∀ (lb : Leaderboard) (d d2 : List (String × ℤ)), addPrior d lb = Except.ok d2 →
      d2.map Prod.fst = d.map Prod.fst
  | [], d, d2, h => by
    rw [addPrior] at h
    injection h with h
    rw [h]
  | (k, none) :: t, d, d2, h => by
    rw [addPrior] at h
    exact addPrior_keys t d d2 h
  | (k, some (nm, sc)) :: t, d, d2, h => by
    rw [addPrior] at h
    cases hl : dictLookup d nm with
    | none =>
      rw [hl] at h
      cases h
    | some old =>
      rw [hl] at h
      dsimp only at h
      have hmem : nm ∈ d.map Prod.fst := by
        have : (d.find? (fun p => p.1 = nm)).isSome := by
          rw [dictLookup] at hl
          cases hf : d.find? (fun p => p.1 = nm) with
          | none => rw [hf] at hl; cases hl
          | some q => rfl
        obtain ⟨q, hq⟩ := Option.isSome_iff_exists.mp this
        have hqm := List.mem_of_find?_eq_some hq
        have hqk := List.find?_some hq
        simp only [decide_eq_true_eq] at hqk
        rw [← hqk]
        exact List.mem_map_of_mem Prod.fst hqm
      rw [addPrior_keys t _ d2 h, dictSet_keys_of_mem d nm (old + sc) hmem]

/-- The descending-score comparison `sorted(..., key=lambda x: -x[1])`
uses. -/
def scoreDescLe (a b : String × ℤ) : Prop := -a.2 ≤ -b.2

instance : DecidableRel scoreDescLe := fun a b => by
  unfold scoreDescLe
  infer_instance

instance : IsTotal (String × ℤ) scoreDescLe :=
  ⟨fun a b => le_total (-a.2) (-b.2)⟩

instance : IsTrans (String × ℤ) scoreDescLe :=
  ⟨fun _ _ _ hab hbc => le_trans hab hbc⟩

theorem sortDescScore_eq (l : List (String × ℤ)) :
    sortDescScore l = List.insertionSort scoreDescLe l := rfl

/-- Writing to a key sitting at a known position updates exactly that
slot. -/
theorem dictSet_at {β : Type} :
    ∀ (lb : List (String × β)) (P : List String) (k : String) (rest : List String) (v : β),
      lb.map Prod.fst = P ++ k :: rest → k ∉ P →
      (dictSet lb k v).map Prod.fst = lb.map Prod.fst ∧
      (dictSet lb k v).map Prod.snd =
        (lb.map Prod.snd).take P.length ++ v :: (lb.map Prod.snd).drop (P.length + 1)
  | [], P, k, rest, v, hkeys, _ => by
    simp at hkeys
  | (k0, w) :: t, [], k, rest, v, hkeys, _ => by
    simp only [List.map_cons, List.nil_append] at hkeys
    have hk0 : k0 = k := by
      injection hkeys
    rw [dictSet, if_pos hk0]
    subst hk0
    simp
  | (k0, w) :: t, p :: P, k, rest, v, hkeys, hnp => by
    simp only [List.map_cons, List.cons_append] at hkeys
    have hk0 : k0 = p := by injection hkeys
    have htl : t.map Prod.fst = P ++ k :: rest := by
      injection hkeys
    have hne : k0 ≠ k := by
      subst hk0
      intro hkp
      exact hnp (hkp ▸ List.mem_cons_self _ _)
    rw [dictSet, if_neg hne]
    obtain ⟨h1, h2⟩ := dictSet_at t P k rest v htl (fun hm => hnp (List.mem_cons_of_mem _ hm))
    constructor
    · simp [h1]
    · simp only [List.map_cons, h2, List.length_cons, List.take_succ_cons, List.drop_succ_cons]
      rfl

/-- The reassignment loop fills each remaining rank key, in key order,
with the corresponding sorted entry; earlier (already filled) slots keep
their values. -/
theorem assignSlots_spec :
    ∀ (ks : List String) (vals : List (String × ℤ)) (lb lb2 : Leaderboard) (P : List String),
      lb.map Prod.fst = P ++ ks → (P ++ ks).Nodup → vals.length = ks.length →
      assignSlots ks vals lb = Except.ok lb2 →
      lb2.map Prod.fst = P ++ ks ∧
      lb2.map Prod.snd = (lb.map Prod.snd).take P.length ++ vals.map some
  | ks, [], lb, lb2, P, hkeys, hnd, hlen, h => by
    cases ks with
    | nil =>
      rw [assignSlots] at h
      injection h with h
      subst h
      refine ⟨hkeys, ?_⟩
      have hl : lb.length = P.length := by
        have := congrArg List.length hkeys
        simpa using this
      rw [List.map_nil, List.append_nil,
        List.take_of_length_le (le_of_eq (by simp [hl]))]
    | cons k ks' => simp at hlen
  | ks, v :: vs, lb, lb2, P, hkeys, hnd, hlen, h => by
    cases ks with
    | nil => simp at hlen
    | cons k ks' =>
      rw [assignSlots] at h
      obtain ⟨hf1, hf2⟩ := dictSet_at lb P k ks' (some v) hkeys (by
        rw [List.nodup_append] at hnd
        intro hm
        exact hnd.2.2 hm (List.mem_cons_self _ _))
      have hkeys2 : (dictSet lb k (some v)).map Prod.fst = (P ++ [k]) ++ ks' := by
        rw [hf1, hkeys]
        simp
      have hnd2 : ((P ++ [k]) ++ ks').Nodup := by
        simpa [List.append_assoc] using hnd
      have hlen2 : vs.length = ks'.length := by simpa using hlen
      obtain ⟨hg1, hg2⟩ := assignSlots_spec ks' vs (dictSet lb k (some v)) lb2 (P ++ [k])
        hkeys2 hnd2 hlen2 h
      constructor
      · rw [hg1]
        simp
      · rw [hg2, hf2]
        have hplen : P.length ≤ (lb.map Prod.snd).length := by
          have := congrArg List.length hkeys
          simp only [List.length_map, List.length_append] at this ⊢
          omega
        simp only [List.length_append, List.length_singleton]
        rw [List.take_append_eq_append_take]
        rw [List.take_of_length_le (by simpa using hplen)]
        have htk : ((lb.map Prod.snd).take P.length).length = P.length := by
          simpa using hplen
        rw [htk]
        have : P.length + 1 - P.length = 1 := by omega
        rw [this]
        simp

end RunnerSim

namespace RunnerSim

/-! ### The leaderboard invariant through updates and rounds -/

/-- A fully rebuilt leaderboard: every slot holds a value, the held
names are exactly `names` (as a multiset), and the held scores are
non-increasing down the rank order. -/
def lbComplete (names : List String) (lb : Leaderboard) : Prop :=
  ∃ vals : List (String × ℤ), lb.map Prod.snd = vals.map some ∧
    (vals.map Prod.fst).Perm names ∧ List.Sorted scoreDescLe vals

/-- One `update_leaderboard` call that returns keeps the rank keys
unchanged and leaves a fully rebuilt leaderboard. -/
theorem updateLeaderboard_spec (s : Store) (lb lb2 : Leaderboard)
    (results : List (RId × RaceTime))
    (hknd : (lb.map Prod.fst).Nodup)
    (hnnd : (results.map (fun p => (s p.1).name)).Nodup)
    (hlen : lb.length = results.length)
    (hupd : updateLeaderboard s lb results = Except.ok lb2) :
    lb2.map Prod.fst = lb.map Prod.fst ∧
    lbComplete (results.map (fun p => (s p.1).name)) lb2 := by
  rw [updateLeaderboard] at hupd
  cases hm : pySort results with
  | error e =>
    rw [hm] at hupd
    cases hupd
  | ok m =>
    rw [hm] at hupd
    dsimp only at hupd
    have hperm : m.Perm results := pySort_perm results m hm
    have hnamesperm : (m.map (fun p => (s p.1).name)).Perm
        (results.map (fun p => (s p.1).name)) := hperm.map _
    have hmnnd : (m.map (fun p => (s p.1).name)).Nodup := hnamesperm.nodup_iff.mpr hnnd
    rw [buildScoresAux_eq s results.length m 0 [] (by simpa using hmnnd)] at hupd
    rw [List.nil_append] at hupd
    cases hd : addPrior (scoresList s results.length 0 m) lb with
    | error e =>
      rw [hd] at hupd
      cases hupd
    | ok d2 =>
      rw [hd] at hupd
      dsimp only at hupd
      have hdkeys : d2.map Prod.fst = m.map (fun p => (s p.1).name) := by
        rw [addPrior_keys lb _ d2 hd, scoresList_map_fst]
      have hsperm : (sortDescScore d2).Perm d2 := by
        rw [sortDescScore_eq]
        exact List.perm_insertionSort scoreDescLe d2
      have hslen : (sortDescScore d2).length = (lb.map Prod.fst).length := by
        rw [hsperm.length_eq]
        have h1 : d2.length = (d2.map Prod.fst).length := by simp
        have h2 : m.length = results.length := hperm.length_eq
        rw [h1, hdkeys]
        simp [h2, hlen]
      obtain ⟨hk2, hv2⟩ := assignSlots_spec (lb.map Prod.fst) (sortDescScore d2) lb lb2 []
        (by rw [List.nil_append]) (by simpa using hknd) hslen hupd
      refine ⟨by simpa using hk2, sortDescScore d2, by simpa using hv2, ?_, ?_⟩
      · exact ((hsperm.map Prod.fst).trans (hdkeys ▸ List.Perm.refl _)).trans hnamesperm
      · rw [sortDescScore_eq]
        exact List.sorted_insertionSort scoreDescLe d2

/-- The marathon per-runner loop only mutates the runner's energy. -/
theorem simKms_sameId :
    ∀ (kms : ℕ) (st : RunnerSt) (acc : ℚ) (t : RaceTime) (st2 : RunnerSt),
      simKms st acc kms = Except.ok (t, st2) → sameId st2 st
  | 0, st, acc, t, st2, h => by
    rw [simKms] at h
    injection h with h
    rw [show st2 = (t, st2).2 from rfl, ← h]
    exact sameId_refl st
  | kms + 1, st, acc, t, st2, h => by
    rw [simKms] at h
    split at h
    · cases hrr : runRace st "long" 1 with
      | error e =>
        rw [hrr] at h
        cases h
      | ok tq =>
        rw [hrr] at h
        dsimp only at h
        cases hdr : drainEnergy st 100 with
        | error e =>
          rw [hdr] at h
          cases h
        | ok st3 =>
          rw [hdr] at h
          dsimp only at h
          have hst3 : sameId st3 st := by
            rw [drainEnergy] at hdr
            split at hdr
            · cases hdr
            · injection hdr with hdr
              rw [← hdr]
              exact ⟨rfl, rfl, rfl, rfl, rfl, rfl⟩
          exact sameId_trans (simKms_sameId kms st3 _ t st2 h) hst3
    · injection h with h
      rw [show st2 = (t, st2).2 from rfl, ← h]
      exact sameId_refl st

/-- Whatever the short branch of `conduct_race` returns is one entry per
roster member, in order. -/
theorem shortGo_fst (s : Store) (d mult : ℚ) :
    ∀ (ids : List RId) (res : List (RId × RaceTime)),
      shortGo s d mult ids = Except.ok res → res.map Prod.fst = ids
  | [], res, h => by
    rw [shortGo] at h
    injection h with h
    rw [← h]
    rfl
  | rid :: rest, res, h => by
    rw [shortGo] at h
    cases hrr : runRace (s rid) "short" d with
    | error e =>
      rw [hrr] at h
      cases h
    | ok t =>
      rw [hrr] at h
      dsimp only at h
      cases hgo : shortGo s d mult rest with
      | error e =>
        rw [hgo] at h
        cases h
      | ok res' =>
        rw [hgo] at h
        injection h with h
        rw [← h]
        simp [shortGo_fst s d mult rest res' hgo]

/-- Whatever the marathon branch of `conduct_race` returns is one entry
per roster member in order, and only energies change in the store. -/
theorem marathonGo_out (kms : ℕ) :
    ∀ (ids : List RId) (s : Store) (res : List (RId × RaceTime)) (s2 : Store),
      marathonGo s kms ids = Except.ok (res, s2) →
      res.map Prod.fst = ids ∧ ∀ x, sameId (s2 x) (s x)
  | [], s, res, s2, h => by
    rw [marathonGo] at h
    injection h with h
    refine ⟨?_, ?_⟩
    · rw [show res = (res, s2).1 from rfl, ← h]
      rfl
    · intro x
      rw [show s2 = (res, s2).2 from rfl, ← h]
      exact sameId_refl _
  | rid :: rest, s, res, s2, h => by
    rw [marathonGo] at h
    cases hsim : simKms (s rid) 0 kms with
    | error e =>
      rw [hsim] at h
      cases h
    | ok p =>
      obtain ⟨t, st2⟩ := p
      rw [hsim] at h
      dsimp only at h
      cases hgo : marathonGo (updStore s rid st2) kms rest with
      | error e =>
        rw [hgo] at h
        cases h
      | ok q =>
        obtain ⟨res', s2'⟩ := q
        rw [hgo] at h
        injection h with h
        obtain ⟨hfst, hsame⟩ := marathonGo_out kms rest (updStore s rid st2) res' s2' hgo
        have hres : res = (rid, t) :: res' := by
          rw [show res = (res, s2).1 from rfl, ← h]
        have hs2 : s2 = s2' := by
          rw [show s2 = (res, s2).2 from rfl, ← h]
        subst hres
        subst hs2
        refine ⟨by simp [hfst], fun x => ?_⟩
        refine sameId_trans (hsame x) ?_
        by_cases hxr : x = rid
        · subst hxr
          rw [updStore_self]
          exact simKms_sameId kms (s x) 0 t st2 hsim
        · rw [updStore_other s _ hxr]
          exact sameId_refl _

/-- Model of `recover_energy` only mutates energy. -/
theorem recoverEnergy_sameId {st st2 : RunnerSt} {a : ℤ}
    (h : recoverEnergy st a = Except.ok st2) : sameId st2 st := by
  rw [recoverEnergy] at h
  split at h
  · cases h
  · injection h with h
    rw [← h]
    exact ⟨rfl, rfl, rfl, rfl, rfl, rfl⟩

/-- The DNF recovery loop only mutates energies. -/
theorem recoverDNFs_sameId :
    ∀ (res : List (RId × RaceTime)) (s s3 : Store),
      recoverDNFs s res = Except.ok s3 → ∀ x, sameId (s3 x) (s x)
  | [], s, s3, h => by
    rw [recoverDNFs] at h
    injection h with h
    rw [← h]
    exact fun x => sameId_refl _
  | (rid, t) :: rest, s, s3, h => by
    rw [recoverDNFs] at h
    split at h
    · cases hre : recoverEnergy (s rid) 1000 with
      | error e =>
        rw [hre] at h
        cases h
      | ok st2 =>
        rw [hre] at h
        dsimp only at h
        intro x
        refine sameId_trans (recoverDNFs_sameId rest _ s3 h x) ?_
        by_cases hxr : x = rid
        · subst hxr
          rw [updStore_self]
          exact recoverEnergy_sameId hre
        · rw [updStore_other s _ hxr]
          exact sameId_refl _
    · exact recoverDNFs_sameId rest s s3 h

end RunnerSim

namespace RunnerSim

/-- One competition round that returns keeps the rank keys, fully
rebuilds the leaderboard over the roster names, and only mutates runner
energies. -/
theorem compRound_spec (c : Competition) (s : Store) (lb : Leaderboard)
    (out : Store × Leaderboard)
    (h : compRound c s lb = Except.ok out)
    (hknd : (lb.map Prod.fst).Nodup)
    (hnnd : (c.runners.map (fun rid => (s rid).name)).Nodup)
    (hlen : lb.length = c.runners.length) :
    out.2.map Prod.fst = lb.map Prod.fst ∧
    lbComplete (c.runners.map (fun rid => (s rid).name)) out.2 ∧
    (∀ x, sameId (out.1 x) (s x)) := by
  rw [compRound] at h
  cases h1 : listIdx c.distancesShort 0 with
  | error e => rw [h1] at h; cases h
  | ok dShort =>
  rw [h1] at h
  dsimp only at h
  cases h2 : raceInit dShort c.runners "short" with
  | error e => rw [h2] at h; cases h
  | ok shortRace =>
  rw [h2] at h
  dsimp only at h
  cases h3 : conductRace s shortRace with
  | error e => rw [h3] at h; cases h
  | ok pr1 =>
  obtain ⟨shortRes, s1⟩ := pr1
  rw [h3] at h
  dsimp only at h
  cases h4 : listIdx c.distancesMarathon 0 with
  | error e => rw [h4] at h; cases h
  | ok dLong =>
  rw [h4] at h
  dsimp only at h
  cases h5 : raceInit dLong c.runners "long" with
  | error e => rw [h5] at h; cases h
  | ok marathon =>
  rw [h5] at h
  dsimp only at h
  cases h6 : conductRace s1 marathon with
  | error e => rw [h6] at h; cases h
  | ok pr2 =>
  obtain ⟨marathonRes, s2⟩ := pr2
  rw [h6] at h
  dsimp only at h
  cases h7 : recoverDNFs s2 marathonRes with
  | error e => rw [h7] at h; cases h
  | ok s3 =>
  rw [h7] at h
  dsimp only at h
  cases h8 : updateLeaderboard s3 lb shortRes with
  | error e => rw [h8] at h; cases h
  | ok lb1 =>
  rw [h8] at h
  dsimp only at h
  cases h9 : updateLeaderboard s3 lb1 marathonRes with
  | error e => rw [h9] at h; cases h
  | ok lb2 =>
  rw [h9] at h
  dsimp only at h
  injection h with h
  subst h
  -- unpack the two races
  obtain ⟨_, _, rfl⟩ := raceInit_ok h2
  rw [conductRace] at h3
  rw [if_pos rfl] at h3
  dsimp only at h3
  cases hgo : shortGo s dShort 1.2 c.runners with
  | error e => rw [hgo] at h3; cases h3
  | ok res0 =>
  rw [hgo] at h3
  injection h3 with h3
  have hsres : shortRes = res0 := by
    rw [show shortRes = (shortRes, s1).1 from rfl, ← h3]
  have hs1 : s1 = s := by
    rw [show s1 = (shortRes, s1).2 from rfl, ← h3]
  subst hsres
  rw [hs1] at h6
  have hshortfst : shortRes.map Prod.fst = c.runners :=
    shortGo_fst s dShort 1.2 c.runners shortRes hgo
  obtain ⟨_, _, rfl⟩ := raceInit_ok h5
  rw [conductRace] at h6
  rw [if_neg (by decide : ¬("long" : String) = "short"), if_pos rfl] at h6
  obtain ⟨hmarfst, hsame2⟩ := marathonGo_out (Rat.ceil dLong).toNat c.runners s marathonRes s2 h6
  have hsame3 := recoverDNFs_sameId marathonRes s2 s3 h7
  have hname3 : ∀ x, (s3 x).name = (s x).name := fun x =>
    ((hsame3 x).1).trans ((hsame2 x).1)
  have hnames_short : shortRes.map (fun p => (s3 p.1).name) =
      c.runners.map (fun rid => (s rid).name) := by
    rw [show (fun p : RId × RaceTime => (s3 p.1).name) =
      ((fun rid => (s3 rid).name) ∘ Prod.fst) from rfl, ← List.map_map, hshortfst]
    exact List.map_congr_left (fun rid _ => hname3 rid)
  have hnames_mar : marathonRes.map (fun p => (s3 p.1).name) =
      c.runners.map (fun rid => (s rid).name) := by
    rw [show (fun p : RId × RaceTime => (s3 p.1).name) =
      ((fun rid => (s3 rid).name) ∘ Prod.fst) from rfl, ← List.map_map, hmarfst]
    exact List.map_congr_left (fun rid _ => hname3 rid)
  have hlen_short : lb.length = shortRes.length := by
    have := congrArg List.length hshortfst
    simp only [List.length_map] at this
    omega
  obtain ⟨hk1, _⟩ := updateLeaderboard_spec s3 lb lb1 shortRes hknd
    (by rw [hnames_short]; exact hnnd) hlen_short h8
  have hlen1 : lb1.length = marathonRes.length := by
    have hm := congrArg List.length hmarfst
    have hkk := congrArg List.length hk1
    simp only [List.length_map] at hm hkk
    omega
  obtain ⟨hk2, hcomp2⟩ := updateLeaderboard_spec s3 lb1 lb2 marathonRes
    (by rw [hk1]; exact hknd) (by rw [hnames_mar]; exact hnnd) hlen1 h9
  refine ⟨by rw [hk2, hk1], ?_, fun x => sameId_trans (hsame3 x) (hsame2 x)⟩
  rw [hnames_mar] at hcomp2
  exact hcomp2

end RunnerSim

namespace RunnerSim

/-- The round loop keeps the rank keys and, once at least one round has
run, leaves a fully rebuilt leaderboard over the roster names. -/
theorem compLoop_spec :
    ∀ (n : ℕ) (c : Competition) (s : Store) (lb : Leaderboard) (out : Store × Leaderboard),
      compLoop c n s lb = Except.ok out →
      (lb.map Prod.fst).Nodup →
      (c.runners.map (fun rid => (s rid).name)).Nodup →
      lb.length = c.runners.length →
      out.2.map Prod.fst = lb.map Prod.fst ∧
      (0 < n → lbComplete (c.runners.map (fun rid => (s rid).name)) out.2)
  | 0, c, s, lb, out, h, _, _, _ => by
    rw [compLoop] at h
    injection h with h
    rw [← h]
    exact ⟨rfl, fun h0 => absurd h0 (by omega)⟩
  | n + 1, c, s, lb, out, h, hknd, hnnd, hlen => by
    rw [compLoop] at h
    cases hr : compRound c s lb with
    | error e =>
      rw [hr] at h
      cases h
    | ok pr =>
      obtain ⟨s2, lb2⟩ := pr
      rw [hr] at h
      dsimp only at h
      obtain ⟨hk, hcomp, hsame⟩ := compRound_spec c s lb (s2, lb2) hr hknd hnnd hlen
      have hnames2 : c.runners.map (fun rid => (s2 rid).name) =
          c.runners.map (fun rid => (s rid).name) :=
        List.map_congr_left (fun rid _ => (hsame rid).1)
      have hlen2 : lb2.length = c.runners.length := by
        have := congrArg List.length hk
        simp only [List.length_map] at this
        omega
      obtain ⟨hk2, hcomp2⟩ := compLoop_spec n c s2 lb2 out h
        (by rw [hk]; exact hknd) (by rw [hnames2]; exact hnnd) hlen2
      refine ⟨by rw [hk2, hk], fun _ => ?_⟩
      rcases Nat.eq_zero_or_pos n with hn | hn
      · subst hn
        rw [compLoop] at h
        injection h with h
        rw [← h]
        exact hcomp
      · rw [hnames2] at hcomp2
        exact hcomp2 hn

/-- Inversion of a successful `Competition.__init__`. -/
theorem competitionInit_ok {runnersL : List RId} {rounds : ℤ} {ds dm : List ℚ}
    {c : Competition}
    (h : competitionInit runnersL rounds ds dm = Except.ok c) :
    1 ≤ rounds ∧
      c = { runners := runnersL, rounds := rounds, distancesShort := ds,
            distancesMarathon := dm, leaderboard := initLeaderboard runnersL.length } := by
  rw [competitionInit] at h
  split at h
  · cases h
  · next hcond =>
    rw [not_not] at hcond
    refine ⟨hcond.1, ?_⟩
    injection h with h
    rw [← h]

/-- Claim C4 (amended): provided the roster's runner names are pairwise
distinct, after a completed `conduct_competition` the leaderboard maps
exactly `|roster|` ordinal rank labels — `"1st", "2nd", …` as produced
by `__get_ordinal`, whose suffixing follows the last digit with the
11/12/13 exception — in rank order to occupied `(runner name, cumulative
score)` slots, the held names being exactly the roster names and the
held scores non-increasing down the ranks. -/
theorem c4_conduct_competition_leaderboard (runnersL : List RId) (rounds : ℤ)
    (ds dm : List ℚ) (c : Competition) (s s2 : Store) (lb : Leaderboard)
    (hinit : competitionInit runnersL rounds ds dm = Except.ok c)
    (hnnd : (runnersL.map (fun rid => (s rid).name)).Nodup)
    (hrun : conductCompetition s c = Except.ok (s2, lb)) :
    lb.map Prod.fst = (List.range runnersL.length).map (fun i => getOrdinal (i + 1)) ∧
    (∃ vals : List (String × ℤ), lb.map Prod.snd = vals.map some ∧
      (vals.map Prod.fst).Perm (runnersL.map (fun rid => (s rid).name)) ∧
      List.Sorted scoreDescLe vals) ∧
    getOrdinal 1 = "1st" ∧ getOrdinal 2 = "2nd" ∧ getOrdinal 3 = "3rd" ∧
    getOrdinal 4 = "4th" ∧ getOrdinal 11 = "11th" ∧ getOrdinal 12 = "12th" ∧
    getOrdinal 13 = "13th" ∧ getOrdinal 21 = "21st" ∧ getOrdinal 101 = "101st" ∧
    getOrdinal 111 = "111th" := by
  obtain ⟨hrounds, rfl⟩ := competitionInit_ok hinit
  rw [conductCompetition] at hrun
  have h0 : 0 < rounds.toNat := by omega
  have hlen0 : (initLeaderboard runnersL.length).length = runnersL.length := by
    rw [initLeaderboard_eq]
    simp
  obtain ⟨hk, hcomp⟩ := compLoop_spec rounds.toNat _ s (initLeaderboard runnersL.length)
    (s2, lb) hrun (initLeaderboard_keys_nodup runnersL.length) hnnd hlen0
  refine ⟨?_, hcomp h0, by decide, by decide, by decide, by decide, by decide, by decide,
    by decide, by decide, by decide, by decide⟩
  rw [hk, initLeaderboard_eq, List.map_map]
  rfl

end RunnerSim

namespace RunnerSim

/-- A store in which both roster members carry the same name. -/
def wStoreDup : Store := fun _ => wRunner "A" 5 4

/-- The two-slot leaderboard built by `Competition.__init__` for two
runners. -/
theorem initLeaderboard_two : initLeaderboard 2 = [("1st", none), ("2nd", none)] := by
  decide

/-- Counterexample for C4: with two distinct roster members that share
the name `"A"`, `conduct_competition` completes but the final
leaderboard leaves the `"2nd"` rank label unoccupied — the name-keyed
score dict collapses the two runners, so not every roster member is
present and not every rank label maps to a `(name, score)` pair. -/
theorem c4_duplicate_names_counterexample :
    (match competitionInit [0, 1] 1 [1.0] [4.0] with
      | .ok c => conductCompetition wStoreDup c
      | .error e => .error e).map Prod.snd =
      Except.ok [("1st", some ("A", 0)), ("2nd", none)] := by
  norm_num [competitionInit, conductCompetition, compLoop, compRound, listIdx, raceInit,
    conductRace, shortGo, marathonGo, simKms, runRace, drainEnergy, recoverEnergy,
    recoverDNFs, updStore, pyRound2, roundHalfEven, ratFloor_eq, ratCeil_eq,
    intCeil_negFloor, Int.toNat_ofNat, updateLeaderboard, pySort, pyInsert, timeLt,
    buildScoresAux, dictSet, dictLookup, addPrior, sortDescScore, List.insertionSort,
    List.orderedInsert, assignSlots, initLeaderboard_two, wStoreDup, wRunner, Except.map,
    num_ne_dnf, -Int.self_sub_floor,
    show ("long" : String) ≠ "short" from by decide,
    show ("short" : String) ≠ "long" from by decide,
    show ("1st" : String) ≠ "2nd" from by decide,
    show ("2nd" : String) ≠ "1st" from by decide]

/-- The competition object `Competition.__init__` builds for the C4
witness. -/
def wComp : Competition :=
  { runners := [0, 1], rounds := 1, distancesShort := [1.0],
    distancesMarathon := [4.0], leaderboard := [("1st", none), ("2nd", none)] }

/-- The store a one-round competition on `wStore` ends with: both
runners finished the 4 km marathon and keep their drained energy. -/
def wCompS2 : Store :=
  updStore (updStore wStore 0
    { name := "A", age := 20, country := "Australia", sprintSpeed := 5,
      enduranceSpeed := 4, energy := 600, maxEnergy := 1000 }) 1
    { name := "B", age := 20, country := "Australia", sprintSpeed := 4,
      enduranceSpeed := 2, energy := 600, maxEnergy := 1000 }

/-- Witness for C4: the concrete one-round competition ends with the
leaderboard keyed by `"1st", "2nd"` in rank order. -/
theorem c4_conduct_competition_leaderboard_witness :
    ([("1st", some (("A" : String), (2 : ℤ))), ("2nd", some ("B", 0))] : Leaderboard).map
        Prod.fst =
      (List.range ([0, 1] : List RId).length).map (fun i => getOrdinal (i + 1)) := by
  have hinit : competitionInit [0, 1] 1 [1.0] [4.0] = Except.ok wComp := by
    norm_num [competitionInit, wComp, initLeaderboard_two]
  have hrun : conductCompetition wStore wComp =
      Except.ok (wCompS2, [("1st", some ("A", 2)), ("2nd", some ("B", 0))]) := by
    norm_num [conductCompetition, compLoop, compRound, listIdx, raceInit,
      conductRace, shortGo, marathonGo, simKms, runRace, drainEnergy, recoverEnergy,
      recoverDNFs, updStore, pyRound2, roundHalfEven, ratFloor_eq, ratCeil_eq,
      intCeil_negFloor, Int.toNat_ofNat, updateLeaderboard, pySort, pyInsert, timeLt,
      buildScoresAux, dictSet, dictLookup, addPrior, sortDescScore, List.insertionSort,
      List.orderedInsert, assignSlots, wComp, wCompS2, wStore, wRunner,
      num_ne_dnf, -Int.self_sub_floor,
      show ("long" : String) ≠ "short" from by decide,
      show ("short" : String) ≠ "long" from by decide,
      show ("A" : String) ≠ "B" from by decide,
      show ("B" : String) ≠ "A" from by decide,
      show ("1st" : String) ≠ "2nd" from by decide,
      show ("2nd" : String) ≠ "1st" from by decide]
  exact (c4_conduct_competition_leaderboard [0, 1] 1 [1.0] [4.0] wComp wStore wCompS2
    [("1st", some ("A", 2)), ("2nd", some ("B", 0))] hinit (by decide) hrun).1

end RunnerSim
